import Mathlib

/-!
Verification of the `dns_rust` recursive DNS resolver against its
natural-language specification.

The development shallowly embeds the Rust sources:
* `src/dns_server/dns_packet/buffer.rs` — byte cursor (`BufferParser`,
  `BufferBuilder`): bytes are `Nat` values below 256, buffers are `List Nat`,
  machine integers are `Nat` with explicit `% 2 ^ w` masking on write;
* `src/dns_server/dns_packet.rs` — message model and encoder;
* `src/dns_cache.rs` — TTL cache (time is an explicit `Nat` parameter);
* `src/dns_server.rs` — the pure request-classification cores of
  `resolve_request` and `recursive_lookup` (network I/O is out of scope, the
  decision logic applied to an already-decoded reply is embedded).

Fallible Rust functions returning `io::Result` are embedded as `Except`
values over the error kinds the module distinguishes; the `?` operator is
embedded as `Except.bind`.  Loops are embedded as fuel-indexed structural
recursion; the fuel argument only bounds the number of loop iterations and
theorems quantify over it or state explicit sufficient amounts.
-/

namespace DnsRust

/-- Error kinds surfaced by the codec (`buffer.rs` creates `io::Error`
values with these three distinct messages). -/
inductive DnsErr where
  | endOfBuffer
  | tooManyJumps
  | labelTooLong
  deriving DecidableEq

instance {ε α : Type} [DecidableEq ε] [DecidableEq α] : DecidableEq (Except ε α)
  | .ok a, .ok b =>
    if h : a = b then .isTrue (by rw [h]) else .isFalse (by simp [h])
  | .ok _, .error _ => .isFalse (by simp)
  | .error _, .ok _ => .isFalse (by simp)
  | .error e, .error e' =>
    if h : e = e' then .isTrue (by rw [h]) else .isFalse (by simp [h])

/-- Reduction of `Except.bind` on a success value. -/
theorem bindOk {α β : Type} (a : α) (f : α → Except DnsErr β) :
    (Except.ok a : Except DnsErr α).bind f = f a := rfl

/-- Reduction of `Except.bind` on an error value. -/
theorem bindErr {α β : Type} (e : DnsErr) (f : α → Except DnsErr β) :
    (Except.error e : Except DnsErr α).bind f = .error e := rfl

/-- `JUMP_MASK` from `buffer.rs`. -/
def JUMP_MASK : Nat := 192

/-- `MAX_JUMPS` from `buffer.rs`. -/
def MAX_JUMPS : Nat := 5

/-- Byte-wise ASCII lowercasing.  `read_name` lowercases each label via
`String::from_utf8_lossy(..).to_lowercase()`; on ASCII bytes (the range the
roundtrip theorems quantify over) that is exactly per-byte ASCII lowering. -/
def asciiLower (b : Nat) : Nat := if 65 ≤ b ∧ b ≤ 90 then b + 32 else b

/-- `BufferParser::get`: bounds-checked byte access. -/
def bufGet (buf : List Nat) (pos : Nat) : Except DnsErr Nat :=
  if pos ≥ buf.length then .error .endOfBuffer else .ok (buf.getD pos 0)

/-- `BufferParser::get_u16`: big-endian 16-bit read at an explicit offset. -/
def bufGetU16 (buf : List Nat) (pos : Nat) : Except DnsErr Nat :=
  if pos + 2 > buf.length then .error .endOfBuffer
  else .ok (buf.getD pos 0 * 256 + buf.getD (pos + 1) 0)

/-- `BufferParser::get_range`: slice of `len` bytes from `bg` (note the
source's strict `begin + len >= len(buf)` bound check). -/
def bufGetRange (buf : List Nat) (bg len : Nat) : Except DnsErr (List Nat) :=
  if bg + len ≥ buf.length then .error .endOfBuffer
  else .ok ((buf.drop bg).take len)

/-- The loop of `BufferParser::read_name`.  `localPos` is the loop-local
cursor, `jc` the `jump_counter`, `selfPos` the parser's own position
(`self.position`, updated past the first pointer only), `acc` the name
accumulated with a trailing dot per label.  `fuel` bounds loop iterations;
it is consumed once per iteration and theorems supply provably sufficient
amounts. -/
def readNameAux (buf : List Nat) :
    Nat → Nat → Nat → Nat → List Nat → Except DnsErr (List Nat × Nat)
  | 0, _, _, _, _ => .error .endOfBuffer
  | fuel + 1, localPos, jc, selfPos, acc =>
    if jc > MAX_JUMPS then .error .tooManyJumps
    else
      (bufGet buf localPos).bind fun len =>
        if JUMP_MASK &&& len = JUMP_MASK then
          (bufGetU16 buf localPos).bind fun w =>
            readNameAux buf fuel (w &&& 16383) (jc + 1)
              (if jc = 0 then localPos + 2 else selfPos) acc
        else
          if len = 0 then
            .ok (if acc.isEmpty then acc else acc.dropLast,
                 if jc = 0 then localPos + 1 else selfPos)
          else
            (bufGetRange buf (localPos + 1) len).bind fun s =>
              readNameAux buf fuel (localPos + 1 + len) jc selfPos
                (acc ++ s.map asciiLower ++ [46])

/-- `BufferParser::read_name` decoding a name starting at `pos` (the
parser's position): returns the decoded name and the parser's final
position. -/
def readName (buf : List Nat) (pos fuel : Nat) : Except DnsErr (List Nat × Nat) :=
  readNameAux buf fuel pos 0 pos []

/-- Reference instrumentation of the same loop with the `MAX_JUMPS` check
removed and the final value of `jump_counter` returned alongside the
result: it decodes a name following arbitrarily many pointer jumps and
reports how many were needed.  Used to state the jump-limit claim. -/
def readNameFree (buf : List Nat) :
    Nat → Nat → Nat → Nat → List Nat → Except DnsErr (List Nat × Nat × Nat)
  | 0, _, _, _, _ => .error .endOfBuffer
  | fuel + 1, localPos, jc, selfPos, acc =>
    (bufGet buf localPos).bind fun len =>
      if JUMP_MASK &&& len = JUMP_MASK then
        (bufGetU16 buf localPos).bind fun w =>
          readNameFree buf fuel (w &&& 16383) (jc + 1)
            (if jc = 0 then localPos + 2 else selfPos) acc
      else
        if len = 0 then
          .ok (if acc.isEmpty then acc else acc.dropLast,
               if jc = 0 then localPos + 1 else selfPos, jc)
        else
          (bufGetRange buf (localPos + 1) len).bind fun s =>
            readNameFree buf fuel (localPos + 1 + len) jc selfPos
              (acc ++ s.map asciiLower ++ [46])

/-- Lockstep comparison of the instrumented and the actual name decoder:
whenever the unrestricted decoder finishes with final jump count `j`, the
actual decoder (with the `MAX_JUMPS` check) returns the same result when
`j ≤ 5` and fails with `tooManyJumps` when `j > 5`. -/
theorem readNameAux_of_free (buf : List Nat) :
    ∀ fuel localPos jc selfPos acc n p j,
      readNameFree buf fuel localPos jc selfPos acc = .ok (n, p, j) →
      jc ≤ j ∧
      (j ≤ MAX_JUMPS → readNameAux buf fuel localPos jc selfPos acc = .ok (n, p)) ∧
      (MAX_JUMPS < j →
        readNameAux buf fuel localPos jc selfPos acc = .error .tooManyJumps) := by
  intro fuel
  induction fuel with
  | zero =>
    intro localPos jc selfPos acc n p j h
    simp [readNameFree] at h
  | succ fuel ih =>
    intro localPos jc selfPos acc n p j h
    rw [readNameFree] at h
    rw [readNameAux]
    cases hget : bufGet buf localPos with
    | error e => rw [hget, bindErr] at h; exact absurd h (by simp)
    | ok len =>
      rw [hget, bindOk] at h
      by_cases hjm : JUMP_MASK &&& len = JUMP_MASK
      · rw [if_pos hjm] at h
        cases hg16 : bufGetU16 buf localPos with
        | error e => rw [hg16, bindErr] at h; exact absurd h (by simp)
        | ok w =>
          rw [hg16, bindOk] at h
          obtain ⟨hle, hok, herr⟩ := ih _ _ _ _ _ _ _ h
          refine ⟨by omega, ?_, ?_⟩
          · intro hj
            have hjc : ¬ jc > MAX_JUMPS := by omega
            rw [if_neg hjc, bindOk, if_pos hjm, bindOk]
            exact hok hj
          · intro hj
            by_cases hjc : jc > MAX_JUMPS
            · rw [if_pos hjc]
            · rw [if_neg hjc, bindOk, if_pos hjm, bindOk]
              exact herr hj
      · rw [if_neg hjm] at h
        by_cases hlen : len = 0
        · rw [if_pos hlen] at h
          have h' := h
          simp only [Except.ok.injEq, Prod.mk.injEq] at h'
          obtain ⟨hn, hp, hj⟩ := h'
          refine ⟨by omega, ?_, ?_⟩
          · intro hjle
            have hjc : ¬ jc > MAX_JUMPS := by omega
            rw [if_neg hjc, bindOk, if_neg hjm, if_pos hlen, hn, hp]
          · intro hjgt
            rw [if_pos (by omega : jc > MAX_JUMPS)]
        · rw [if_neg hlen] at h
          cases hrange : bufGetRange buf (localPos + 1) len with
          | error e => rw [hrange, bindErr] at h; exact absurd h (by simp)
          | ok s =>
            rw [hrange, bindOk] at h
            obtain ⟨hle, hok, herr⟩ := ih _ _ _ _ _ _ _ h
            refine ⟨hle, ?_, ?_⟩
            · intro hj
              have hjc : ¬ jc > MAX_JUMPS := by omega
              rw [if_neg hjc, bindOk, if_neg hjm, if_neg hlen, hrange, bindOk]
              exact hok hj
            · intro hj
              by_cases hjc : jc > MAX_JUMPS
              · rw [if_pos hjc]
              · rw [if_neg hjc, bindOk, if_neg hjm, if_neg hlen, hrange, bindOk]
                exact herr hj

/-- C2: `read_name` follows at most 5 compression-pointer jumps.  If the
name at `pos` decodes (per the unrestricted reference decoder) using `j`
jumps, then for `j ≤ 5` the actual `read_name` succeeds with the very same
name and final position (in particular `TooManyJumps` is never raised),
and for `j > 5` the actual `read_name` fails with `TooManyJumps`. -/
theorem read_name_jump_limit (buf : List Nat) (pos fuel : Nat)
    (n : List Nat) (p j : Nat)
    (h : readNameFree buf fuel pos 0 pos [] = .ok (n, p, j)) :
    (j ≤ MAX_JUMPS → readName buf pos fuel = .ok (n, p)) ∧
    (MAX_JUMPS < j → readName buf pos fuel = .error .tooManyJumps) :=
  (readNameAux_of_free buf fuel pos 0 pos [] n p j h).2

/-- A buffer whose name at position 0 needs six pointer jumps: pointers at
offsets 0, 2, 4, 6, 8 and 10 chain to the label `a` at offset 12. -/
def jumpBuf6 : List Nat := [192, 2, 192, 4, 192, 6, 192, 8, 192, 10, 192, 12, 1, 97, 0]

/-- The same chain with five jumps: pointers at offsets 0, 2, 4, 6 and 8
lead to the label `a` at offset 10. -/
def jumpBuf5 : List Nat := [192, 2, 192, 4, 192, 6, 192, 8, 192, 10, 1, 97, 0]

/-- Witness for C2 at concrete inputs: the six-jump chain makes `read_name`
fail with `TooManyJumps` while the five-jump chain decodes to `a`. -/
theorem read_name_jump_limit_witness :
    readName jumpBuf6 0 20 = .error .tooManyJumps ∧
    readName jumpBuf5 0 20 = .ok ([97], 2) := by
  constructor
  · exact (read_name_jump_limit jumpBuf6 0 20 [97] 2 6 (by decide)).2 (by decide)
  · exact (read_name_jump_limit jumpBuf5 0 20 [97] 2 5 (by decide)).1 (by decide)

/-- Overwrite `d` with the bytes of `src` starting at index `p`
(`copy_from_slice` into `buf[p .. p + src.len()]`). -/
def setRange : List Nat → Nat → List Nat → List Nat
  | d, _, [] => d
  | d, p, b :: bs => setRange (d.set p b) (p + 1) bs

/-- `BufferBuilder`: a byte buffer of fixed length plus a write position. -/
structure BufferBuilder where
  data : List Nat
  pos : Nat
  deriving DecidableEq

/-- Big-endian byte decomposition of the low `k` bytes of `v`
(`to_be_bytes` of `v` truncated to a `k`-byte machine integer). -/
def beBytes (k v : Nat) : List Nat :=
  (List.range k).map fun i => v / 256 ^ (k - 1 - i) % 256

/-- Space-checked raw byte write at the current position (the shared shape
of `BufferBuilder::write/write_u16/write_u32/write_u128`: `ensure_space`
then copy then advance). -/
def writeBytes (st : BufferBuilder) (l : List Nat) : Except DnsErr BufferBuilder :=
  if st.pos + l.length > st.data.length then .error .endOfBuffer
  else .ok ⟨setRange st.data st.pos l, st.pos + l.length⟩

/-- `BufferBuilder::write`: single byte (`val` is a `u8`, hence the mask). -/
def writeU8 (st : BufferBuilder) (v : Nat) : Except DnsErr BufferBuilder :=
  writeBytes st [v % 256]

/-- `BufferBuilder::write_u16`. -/
def writeU16 (st : BufferBuilder) (v : Nat) : Except DnsErr BufferBuilder :=
  writeBytes st (beBytes 2 v)

/-- `BufferBuilder::write_u32`. -/
def writeU32 (st : BufferBuilder) (v : Nat) : Except DnsErr BufferBuilder :=
  writeBytes st (beBytes 4 v)

/-- `BufferBuilder::write_u128`. -/
def writeU128 (st : BufferBuilder) (v : Nat) : Except DnsErr BufferBuilder :=
  writeBytes st (beBytes 16 v)

/-- `BufferBuilder::set_u16`: backpatch two bytes at `p` without moving the
position.  Note the source's `ensure_space(2)` checks the *current*
position, not `p`. -/
def setU16 (st : BufferBuilder) (v p : Nat) : Except DnsErr BufferBuilder :=
  if st.pos + 2 > st.data.length then .error .endOfBuffer
  else .ok ⟨setRange st.data p (beBytes 2 v), st.pos⟩

/-- Rust `str::split('.')` on a byte string: always at least one piece,
adjacent dots and leading/trailing dots produce empty pieces. -/
def splitDot : List Nat → List (List Nat)
  | [] => [[]]
  | b :: rest =>
    match splitDot rest with
    | [] => [[]]
    | h :: t => if b = 46 then [] :: h :: t else (b :: h) :: t

/-- The label loop of `BufferBuilder::write_name`: length-check each label,
write its length byte and its bytes. -/
def writeLabels : List (List Nat) → BufferBuilder → Except DnsErr BufferBuilder
  | [], st => .ok st
  | l :: ls, st =>
    if l.length > 63 then .error .labelTooLong
    else
      (writeBytes st [l.length % 256]).bind fun st1 =>
        (writeBytes st1 l).bind fun st2 =>
          writeLabels ls st2

/-- `BufferBuilder::write_name`: write the dot-separated labels of `name`
followed by a terminating zero byte. -/
def writeName (name : List Nat) (st : BufferBuilder) : Except DnsErr BufferBuilder :=
  (writeLabels (splitDot name) st).bind fun st1 => writeBytes st1 [0]

/-- Wire encoding of a label list: each label length-prefixed. -/
def labelsEnc : List (List Nat) → List Nat
  | [] => []
  | l :: ls => (l.length :: l) ++ labelsEnc ls

/-- Wire encoding of a dotted name as `write_name` emits it. -/
def nameEnc (name : List Nat) : List Nat := labelsEnc (splitDot name) ++ [0]

/-- `List.set` leaves indices other than the written one unchanged. -/
theorem getD_set_ne (d : List Nat) (p i b : Nat) (h : p ≠ i) :
    (d.set p b).getD i 0 = d.getD i 0 := by
  by_cases hi : i < d.length
  · rw [List.getD_eq_getElem _ _ (by rw [List.length_set]; exact hi),
      List.getD_eq_getElem _ _ hi, List.getElem_set, if_neg h]
  · rw [List.getD_eq_default _ _ (by rw [List.length_set]; omega),
      List.getD_eq_default _ _ (by omega)]

/-- `List.set` stores the written byte at the written index. -/
theorem getD_set_self (d : List Nat) (p b : Nat) (h : p < d.length) :
    (d.set p b).getD p 0 = b := by
  rw [List.getD_eq_getElem _ _ (by rw [List.length_set]; exact h),
    List.getElem_set, if_pos rfl]

theorem setRange_length (src : List Nat) :
    ∀ (d : List Nat) (p : Nat), (setRange d p src).length = d.length := by
  induction src with
  | nil => intro d p; rfl
  | cons b bs ih => intro d p; rw [setRange, ih, List.length_set]

/-- `setRange` does not touch indices below the write position. -/
theorem setRange_getD_low (src : List Nat) :
    ∀ (d : List Nat) (p i : Nat), i < p →
      (setRange d p src).getD i 0 = d.getD i 0 := by
  induction src with
  | nil => intro d p i _; rfl
  | cons b bs ih =>
    intro d p i hi
    rw [setRange, ih _ _ _ (by omega), getD_set_ne _ _ _ _ (by omega)]

/-- `setRange` stores the source bytes at the written range. -/
theorem setRange_getD_mid (src : List Nat) :
    ∀ (d : List Nat) (p i : Nat), i < src.length → p + src.length ≤ d.length →
      (setRange d p src).getD (p + i) 0 = src.getD i 0 := by
  induction src with
  | nil => intro d p i hi _; exact absurd hi (by simp)
  | cons b bs ih =>
    intro d p i hi hle
    rw [setRange]
    cases i with
    | zero =>
      have : p + 0 = p := by omega
      rw [this, setRange_getD_low _ _ _ _ (by omega),
        getD_set_self _ _ _ (by simp at hle; omega)]
      rfl
    | succ i =>
      have : p + (i + 1) = (p + 1) + i := by omega
      rw [this, ih _ _ _ (by simp at hi; omega)
        (by rw [List.length_set]; simp at hle ⊢; omega)]
      rfl

/-- `(a ++ b).getD` below the length of `a` reads from `a`. -/
theorem getD_append_left (a b : List Nat) (i : Nat) (h : i < a.length) :
    (a ++ b).getD i 0 = a.getD i 0 := by
  rw [List.getD_eq_getElem _ _ (by rw [List.length_append]; omega),
    List.getD_eq_getElem _ _ h, List.getElem_append_left h]

/-- `(a ++ b).getD` past the length of `a` reads from `b`. -/
theorem getD_append_right (a b : List Nat) (i : Nat) :
    (a ++ b).getD (a.length + i) 0 = b.getD i 0 := by
  by_cases hi : i < b.length
  · rw [List.getD_eq_getElem _ _ (by rw [List.length_append]; omega),
      List.getD_eq_getElem _ _ hi,
      List.getElem_append_right (by omega)]
    congr 1
    omega
  · rw [List.getD_eq_default _ _ (by rw [List.length_append]; omega),
      List.getD_eq_default _ _ (by omega)]

/-- `l` occurs byte-for-byte in `buf` starting at index `p`. -/
def prefixAt (buf : List Nat) (p : Nat) (l : List Nat) : Prop :=
  ∀ i, i < l.length → buf.getD (p + i) 0 = l.getD i 0

theorem prefixAt_append {buf : List Nat} {p : Nat} {a b : List Nat}
    (ha : prefixAt buf p a) (hb : prefixAt buf (p + a.length) b) :
    prefixAt buf p (a ++ b) := by
  intro i hi
  rw [List.length_append] at hi
  by_cases hia : i < a.length
  · rw [getD_append_left _ _ _ hia]; exact ha i hia
  · have : i = a.length + (i - a.length) := by omega
    rw [this, getD_append_right, ← Nat.add_assoc]
    exact hb _ (by omega)

theorem prefixAt_append_elim {buf : List Nat} {p : Nat} {a b : List Nat}
    (h : prefixAt buf p (a ++ b)) :
    prefixAt buf p a ∧ prefixAt buf (p + a.length) b := by
  constructor
  · intro i hi
    rw [← getD_append_left a b i hi]
    exact h i (by rw [List.length_append]; omega)
  · intro i hi
    have h' := h (a.length + i) (by rw [List.length_append]; omega)
    rw [getD_append_right, ← Nat.add_assoc] at h'
    exact h'

/-- Characterization of a successful `writeBytes`: length preserved, the
position advances by the byte count, the bytes land at the old position and
everything below the old position is untouched. -/
theorem writeBytes_ok {st : BufferBuilder} {l : List Nat} {st' : BufferBuilder}
    (h : writeBytes st l = .ok st') :
    st'.data.length = st.data.length ∧ st'.pos = st.pos + l.length ∧
    st'.pos ≤ st.data.length ∧
    prefixAt st'.data st.pos l ∧
    ∀ i, i < st.pos → st'.data.getD i 0 = st.data.getD i 0 := by
  rw [writeBytes] at h
  by_cases hsp : st.pos + l.length > st.data.length
  · rw [if_pos hsp] at h; exact absurd h (by simp)
  · rw [if_neg hsp] at h
    have hst : st' = ⟨setRange st.data st.pos l, st.pos + l.length⟩ := by
      cases h; rfl
    subst hst
    refine ⟨setRange_length _ _ _, rfl, by show st.pos + l.length ≤ st.data.length; omega, ?_, ?_⟩
    · intro i hi
      exact setRange_getD_mid _ _ _ _ hi (by omega)
    · intro i hi
      exact setRange_getD_low _ _ _ _ hi

/-- Characterization of a successful `writeLabels` run: each label passed
the 63-byte check, the buffer length is preserved, the position advances by
the size of the wire encoding, the encoding lands at the old position and
bytes below it are untouched. -/
theorem writeLabels_ok :
    ∀ (ls : List (List Nat)) (st st' : BufferBuilder),
      writeLabels ls st = .ok st' →
      (∀ l ∈ ls, l.length ≤ 63) ∧
      st'.data.length = st.data.length ∧
      st'.pos = st.pos + (labelsEnc ls).length ∧
      prefixAt st'.data st.pos (labelsEnc ls) ∧
      ∀ i, i < st.pos → st'.data.getD i 0 = st.data.getD i 0 := by
  intro ls
  induction ls with
  | nil =>
    intro st st' h
    have hst : st' = st := by rw [writeLabels] at h; cases h; rfl
    subst hst
    exact ⟨by simp, rfl, by simp [labelsEnc], by intro i hi; simp [labelsEnc] at hi,
      fun i _ => rfl⟩
  | cons l ls ih =>
    intro st st' h
    rw [writeLabels] at h
    by_cases h63 : l.length > 63
    · rw [if_pos h63] at h; exact absurd h (by simp)
    · rw [if_neg h63] at h
      cases h1 : writeBytes st [l.length % 256] with
      | error e => rw [h1, bindErr] at h; exact absurd h (by simp)
      | ok st1 =>
        rw [h1, bindOk] at h
        cases h2 : writeBytes st1 l with
        | error e => rw [h2, bindErr] at h; exact absurd h (by simp)
        | ok st2 =>
          rw [h2, bindOk] at h
          have hmod : l.length % 256 = l.length := Nat.mod_eq_of_lt (by omega)
          rw [hmod] at h1
          obtain ⟨hlen1, hpos1, _, hpre1, hlow1⟩ := writeBytes_ok h1
          obtain ⟨hlen2, hpos2, _, hpre2, hlow2⟩ := writeBytes_ok h2
          obtain ⟨hls63, hlen3, hpos3, hpre3, hlow3⟩ := ih st2 st' h
          rw [List.length_singleton _] at hpos1
          have hlenl : (labelsEnc (l :: ls)).length =
              1 + l.length + (labelsEnc ls).length := by
            simp [labelsEnc]
            omega
          refine ⟨?_, by omega, by rw [hlenl]; omega, ?_, ?_⟩
          · intro x hx
            rcases List.mem_cons.mp hx with hx | hx
            · subst hx; omega
            · exact hls63 x hx
          · have hpA : prefixAt st'.data st.pos [l.length] := by
              intro i hi
              rw [hlow3 _ (by simp at hi; omega), hlow2 _ (by simp at hi; omega)]
              exact hpre1 i hi
            have hpB : prefixAt st'.data (st.pos + 1) l := by
              intro i hi
              rw [hlow3 _ (by omega)]
              have h' := hpre2 i hi
              rw [hpos1] at h'
              exact h'
            have hpC : prefixAt st'.data (st.pos + 1 + l.length) (labelsEnc ls) := by
              have h' := hpre3
              rw [hpos2, hpos1] at h'
              exact h'
            have hsplit : labelsEnc (l :: ls) = [l.length] ++ l ++ labelsEnc ls := by
              simp [labelsEnc]
            rw [hsplit]
            refine prefixAt_append (prefixAt_append hpA ?_) ?_
            · rw [List.length_singleton _]
              exact hpB
            · rw [List.length_append, List.length_singleton _]
              have hrw : st.pos + (1 + l.length) = st.pos + 1 + l.length := by omega
              rw [hrw]
              exact hpC
          · intro i hi
            rw [hlow3 _ (by omega), hlow2 _ (by omega), hlow1 _ hi]

/-- Characterization of a successful `write_name`: the wire encoding of the
name (length-prefixed labels plus terminator) lands at the old position. -/
theorem writeName_ok {name : List Nat} {st st' : BufferBuilder}
    (h : writeName name st = .ok st') :
    (∀ l ∈ splitDot name, l.length ≤ 63) ∧
    st'.data.length = st.data.length ∧
    st'.pos = st.pos + (nameEnc name).length ∧
    st'.pos ≤ st.data.length ∧
    prefixAt st'.data st.pos (nameEnc name) ∧
    ∀ i, i < st.pos → st'.data.getD i 0 = st.data.getD i 0 := by
  rw [writeName] at h
  cases h1 : writeLabels (splitDot name) st with
  | error e => rw [h1, bindErr] at h; exact absurd h (by simp)
  | ok st1 =>
    rw [h1, bindOk] at h
    obtain ⟨h63, hlen1, hpos1, hpre1, hlow1⟩ := writeLabels_ok _ _ _ h1
    obtain ⟨hlen2, hpos2, hple2, hpre2, hlow2⟩ := writeBytes_ok h
    rw [List.length_singleton _] at hpos2
    have hlenn : (nameEnc name).length = (labelsEnc (splitDot name)).length + 1 := by
      simp [nameEnc]
    refine ⟨h63, by omega, by rw [hlenn]; omega, by omega, ?_, ?_⟩
    · rw [nameEnc]
      refine prefixAt_append ?_ ?_
      · intro i hi
        rw [hlow2 _ (by omega)]
        exact hpre1 i hi
      · rw [← hpos1]
        exact hpre2
    · intro i hi
      rw [hlow2 _ (by omega), hlow1 _ hi]

/-- What `read_name` accumulates for a label list before the final
trailing-dot pop: each label lowercased and followed by a dot. -/
def lowerEnc : List (List Nat) → List Nat
  | [] => []
  | l :: ls => l.map asciiLower ++ [46] ++ lowerEnc ls

theorem splitDot_ne_nil : ∀ name : List Nat, splitDot name ≠ [] := by
  intro name
  cases name with
  | nil => simp [splitDot]
  | cons b rest =>
    rw [splitDot]
    cases splitDot rest with
    | nil => simp
    | cons h t =>
      show (if b = 46 then [] :: h :: t else (b :: h) :: t) ≠ []
      by_cases hb : b = 46
      · rw [if_pos hb]; simp
      · rw [if_neg hb]; simp

/-- The accumulated lowercased labels of the split of `name` are exactly
the lowercased `name` followed by one trailing dot. -/
theorem lowerEnc_splitDot : ∀ name : List Nat,
    lowerEnc (splitDot name) = name.map asciiLower ++ [46] := by
  intro name
  induction name with
  | nil => simp [splitDot, lowerEnc]
  | cons b rest ih =>
    rw [splitDot]
    cases hs : splitDot rest with
    | nil => exact absurd hs (splitDot_ne_nil rest)
    | cons h t =>
      rw [hs] at ih
      show lowerEnc (if b = 46 then [] :: h :: t else (b :: h) :: t) =
        List.map asciiLower (b :: rest) ++ [46]
      by_cases hb : b = 46
      · rw [if_pos hb, lowerEnc]
        subst hb
        simp [lowerEnc] at ih ⊢
        rw [ih]
        simp [asciiLower]
      · rw [if_neg hb, lowerEnc]
        rw [lowerEnc] at ih
        simp only [List.map_cons, List.cons_append]
        rw [ih]

/-- A length byte of a (≤ 63)-byte label never looks like a pointer. -/
theorem land_jumpmask_small (n : Nat) (h : n ≤ 63) : JUMP_MASK &&& n = 0 := by
  have h64 : ∀ m, m < 64 → 192 &&& m = 0 := by decide
  simpa [JUMP_MASK] using h64 n (by omega)

/-- Reading back a byte range that is known to hold `l`. -/
theorem drop_take_eq_of_prefixAt {buf : List Nat} {q : Nat} {l : List Nat}
    (hpre : prefixAt buf q l) (hle : q + l.length ≤ buf.length) :
    (buf.drop q).take l.length = l := by
  apply List.ext_getElem
  · rw [List.length_take, List.length_drop]; omega
  · intro n h1 h2
    rw [List.getElem_take, List.getElem_drop]
    have h' := hpre n h2
    rw [List.getD_eq_getElem _ _ (by omega), List.getD_eq_getElem _ _ h2] at h'
    exact h'

/-- Decoding a pointer-free wire name: if the buffer holds the
length-prefixed labels `ls` terminated by a zero byte at position `p`, and
every label is nonempty and at most 63 bytes, `read_name`'s loop consumes
exactly that region and returns the lowercased dotted name. -/
theorem readNameAux_labels (buf : List Nat) :
    ∀ (ls : List (List Nat)) (fuel p selfPos : Nat) (acc : List Nat),
      (∀ l ∈ ls, l ≠ [] ∧ l.length ≤ 63) →
      ls.length + 1 ≤ fuel →
      p + (labelsEnc ls).length + 1 ≤ buf.length →
      prefixAt buf p (labelsEnc ls ++ [0]) →
      readNameAux buf fuel p 0 selfPos acc =
        .ok (if (acc ++ lowerEnc ls).isEmpty then acc ++ lowerEnc ls
             else (acc ++ lowerEnc ls).dropLast,
             p + (labelsEnc ls).length + 1) := by
  intro ls
  induction ls with
  | nil =>
    intro fuel p selfPos acc hlab hfuel hle hpre
    cases fuel with
    | zero => omega
    | succ f =>
      rw [readNameAux, if_neg (by decide : ¬ ((0 : Nat) > MAX_JUMPS))]
      have hb0 : buf.getD p 0 = 0 := by
        have h' := hpre 0 (by simp [labelsEnc])
        simpa [labelsEnc] using h'
      have hget : bufGet buf p = .ok 0 := by
        rw [bufGet, if_neg (by simp [labelsEnc] at hle; omega : ¬ p ≥ buf.length), hb0]
      rw [hget, bindOk,
        if_neg (by decide : ¬ (JUMP_MASK &&& 0 = JUMP_MASK)), if_pos rfl]
      simp [lowerEnc, labelsEnc]
  | cons l ls ih =>
    intro fuel p selfPos acc hlab hfuel hle hpre
    obtain ⟨hlne, hl63⟩ := hlab l (List.mem_cons_self _ _)
    cases fuel with
    | zero => simp at hfuel
    | succ f =>
      have hlenl : (labelsEnc (l :: ls)).length =
          1 + l.length + (labelsEnc ls).length := by
        simp [labelsEnc]; omega
      have hsplit : labelsEnc (l :: ls) ++ [0] =
          [l.length] ++ (l ++ (labelsEnc ls ++ [0])) := by
        simp [labelsEnc]
      have hpre' := hpre
      rw [hsplit] at hpre'
      have hpTail := (prefixAt_append_elim hpre').2
      rw [List.length_singleton _] at hpTail
      have hpL := (prefixAt_append_elim hpTail).1
      have hpRest := (prefixAt_append_elim hpTail).2
      rw [readNameAux, if_neg (by decide : ¬ ((0 : Nat) > MAX_JUMPS))]
      have hb0 : buf.getD p 0 = l.length := by
        have h' := hpre 0 (by rw [hsplit]; simp)
        rw [hsplit] at h'
        simpa using h'
      have hget : bufGet buf p = .ok l.length := by
        rw [bufGet, if_neg (by rw [hlenl] at hle; omega : ¬ p ≥ buf.length), hb0]
      rw [hget, bindOk]
      rw [if_neg (fun hEq => by
        rw [land_jumpmask_small l.length hl63] at hEq
        exact absurd hEq.symm (by simp [JUMP_MASK]))]
      rw [if_neg (by simpa using hlne : ¬ (l.length = 0))]
      have hrange : bufGetRange buf (p + 1) l.length = .ok l := by
        rw [bufGetRange,
          if_neg (by rw [hlenl] at hle; omega : ¬ (p + 1 + l.length ≥ buf.length))]
        rw [drop_take_eq_of_prefixAt hpL (by rw [hlenl] at hle; omega)]
      rw [hrange, bindOk]
      rw [ih f (p + 1 + l.length) selfPos (acc ++ l.map asciiLower ++ [46])
        (fun x hx => hlab x (List.mem_cons_of_mem _ hx))
        (by simp at hfuel ⊢; omega)
        (by rw [hlenl] at hle; omega)
        hpRest]
      congr 1
      rw [Prod.mk.injEq]
      constructor
      · simp [lowerEnc, List.append_assoc]
      · rw [hlenl]; omega

/-- C6 (amended): for a dotted name all of whose labels are nonempty (each
at most 63 bytes, which a successful `write_name` enforces) and made of
ASCII bytes (where the byte-level model of Rust's lossy-UTF-8 lowercasing
is exact), writing the name and then decoding from the same position
returns the ASCII-lowercased dotted name, leaving the parser just past the
terminator. -/
theorem write_name_read_name_roundtrip (name : List Nat) (st st' : BufferBuilder)
    (fuel : Nat)
    (hne : ∀ l ∈ splitDot name, l ≠ [])
    (_hascii : ∀ b ∈ name, b < 128)
    (hw : writeName name st = .ok st')
    (hfuel : (splitDot name).length + 1 ≤ fuel) :
    readName st'.data st.pos fuel = .ok (name.map asciiLower, st'.pos) := by
  obtain ⟨h63, hlen, hpos, hple, hpre, _⟩ := writeName_ok hw
  have hlab : ∀ l ∈ splitDot name, l ≠ [] ∧ l.length ≤ 63 :=
    fun l hl => ⟨hne l hl, h63 l hl⟩
  have hlenn : (nameEnc name).length = (labelsEnc (splitDot name)).length + 1 := by
    simp [nameEnc]
  rw [nameEnc] at hpre
  rw [readName,
    readNameAux_labels st'.data (splitDot name) fuel st.pos st.pos [] hlab hfuel
      (by omega) hpre]
  congr 1
  rw [Prod.mk.injEq]
  constructor
  · rw [List.nil_append, lowerEnc_splitDot]
    rw [if_neg (by simp)]
    exact List.dropLast_concat
  · omega

/-- Counterexample to C6 as stated: the label sequence `["", "a"]` has
every label at most 63 bytes, its dotted name is `.a` (bytes `[46, 97]`),
`write_name` succeeds, but decoding reads the empty-label length byte as
the name terminator and returns the empty name instead of the lowercased
`.a`. -/
theorem write_name_read_name_counterexample :
    (∀ l ∈ [([] : List Nat), [97]], l.length ≤ 63) ∧
    ([] : List Nat) ++ [46] ++ [97] = [46, 97] ∧
    writeName [46, 97] ⟨List.replicate 8 0, 0⟩ =
      .ok ⟨[0, 1, 97, 0, 0, 0, 0, 0], 4⟩ ∧
    readName [0, 1, 97, 0, 0, 0, 0, 0] 0 8 = .ok ([], 1) ∧
    ([] : List Nat) ≠ [46, 97].map asciiLower := by
  exact ⟨by decide, by decide, by decide, by decide, by decide⟩

/-- Witness for the amended C6 at a concrete input: writing `ab` and
reading it back. -/
theorem write_name_read_name_roundtrip_witness :
    readName [2, 97, 98, 0, 0, 0, 0, 0] 0 2 = .ok ([97, 98], 4) := by
  have h := write_name_read_name_roundtrip [97, 98] ⟨List.replicate 8 0, 0⟩
    ⟨[2, 97, 98, 0, 0, 0, 0, 0], 4⟩ 2 (by decide) (by decide) (by decide) (by decide)
  have hmap : List.map asciiLower [97, 98] = [97, 98] := by decide
  rw [hmap] at h
  exact h

/-- `flags::QUERY_RESPONSE` (byte 1, bit 7). -/
def QUERY_RESPONSE : Nat := 128

/-- `flags::RECURSION_DESIRED` (byte 1, bit 0). -/
def RECURSION_DESIRED : Nat := 1

/-- `flags::RECURSION_AVAILABLE` (byte 2, bit 7). -/
def RECURSION_AVAILABLE : Nat := 128

/-- `flags::RESPONSE_CODE` (byte 2, low nibble). -/
def RESPONSE_CODE : Nat := 15

/-- `ResponseCode` from `dns_packet.rs`. -/
inductive ResponseCode where
  | NOERROR
  | FORMERR
  | SERVFAIL
  | NXDOMAIN
  | NOTIMP
  | REFUSED
  | YXDOMAIN
  | XRRSET
  | NOTAUTH
  | NOTZONE
  | UNKNOWN
  deriving DecidableEq

/-- `ResponseCode::from`. -/
def ResponseCode.ofNum (n : Nat) : ResponseCode :=
  match n with
  | 0 => .NOERROR
  | 1 => .FORMERR
  | 2 => .SERVFAIL
  | 3 => .NXDOMAIN
  | 4 => .NOTIMP
  | 5 => .REFUSED
  | 6 => .YXDOMAIN
  | 7 => .XRRSET
  | 8 => .NOTAUTH
  | 9 => .NOTZONE
  | _ => .UNKNOWN

/-- `ResponseCode::to_u8` (note `UNKNOWN` encodes back as `SERVFAIL`). -/
def ResponseCode.toU8 : ResponseCode → Nat
  | .NOERROR => 0
  | .FORMERR => 1
  | .SERVFAIL => 2
  | .NXDOMAIN => 3
  | .NOTIMP => 4
  | .REFUSED => 5
  | .YXDOMAIN => 6
  | .XRRSET => 7
  | .NOTAUTH => 8
  | .NOTZONE => 9
  | .UNKNOWN => 2

/-- `QueryType` from `dns_packet.rs` (the source spells it `UNKOWN`). -/
inductive QueryType where
  | UNKOWN (code : Nat)
  | A
  | NS
  | CNAME
  | MX
  | AAAA
  deriving DecidableEq

/-- `QueryType::from`. -/
def QueryType.ofNum (n : Nat) : QueryType :=
  match n with
  | 1 => .A
  | 2 => .NS
  | 5 => .CNAME
  | 15 => .MX
  | 28 => .AAAA
  | _ => .UNKOWN n

/-- `QueryType::to_u16`. -/
def QueryType.toU16 : QueryType → Nat
  | .A => 1
  | .NS => 2
  | .CNAME => 5
  | .MX => 15
  | .AAAA => 28
  | .UNKOWN x => x

/-- `Header` from `dns_packet.rs` (the source spells the authority count
`authoritiy_count`; `u16` fields are `Nat` values). -/
structure Header where
  id : Nat
  flags1 : Nat
  flags2 : Nat
  questionCount : Nat
  answerCount : Nat
  authorityCount : Nat
  additionalCount : Nat
  deriving DecidableEq

/-- `Header::set_query_response` (`!mask` on a `u8` is `255 ^^^ mask`). -/
def Header.setQueryResponse (h : Header) (v : Bool) : Header :=
  if v then { h with flags1 := h.flags1 ||| QUERY_RESPONSE }
  else { h with flags1 := h.flags1 &&& (255 ^^^ QUERY_RESPONSE) }

/-- `Header::set_recursion_desired`. -/
def Header.setRecursionDesired (h : Header) (v : Bool) : Header :=
  if v then { h with flags1 := h.flags1 ||| RECURSION_DESIRED }
  else { h with flags1 := h.flags1 &&& (255 ^^^ RECURSION_DESIRED) }

/-- `Header::set_recursion_available`. -/
def Header.setRecursionAvailable (h : Header) (v : Bool) : Header :=
  if v then { h with flags2 := h.flags2 ||| RECURSION_AVAILABLE }
  else { h with flags2 := h.flags2 &&& (255 ^^^ RECURSION_AVAILABLE) }

/-- `Header::set_response_code`. -/
def Header.setResponseCode (h : Header) (v : ResponseCode) : Header :=
  { h with flags2 := (h.flags2 &&& (255 ^^^ RESPONSE_CODE)) ||| v.toU8 }

/-- `Header::new`. -/
def Header.new (id : Nat) (recursion isResponse : Bool) (rcode : ResponseCode) :
    Header :=
  (((⟨id, 0, 0, 0, 0, 0, 0⟩ : Header).setRecursionDesired
    recursion).setQueryResponse isResponse).setResponseCode rcode

/-- `Header::get_query_response`. -/
def Header.getQueryResponse (h : Header) : Bool :=
  (h.flags1 &&& QUERY_RESPONSE) >>> 7 != 0

/-- `Header::get_recursion_available`. -/
def Header.getRecursionAvailable (h : Header) : Bool :=
  (h.flags2 &&& RECURSION_AVAILABLE) >>> 7 != 0

/-- `Header::get_response_code`. -/
def Header.getResponseCode (h : Header) : ResponseCode :=
  ResponseCode.ofNum (h.flags2 &&& RESPONSE_CODE)

/-- `Header::write_to_buf`. -/
def Header.writeToBuf (h : Header) (st : BufferBuilder) :
    Except DnsErr BufferBuilder :=
  (writeU16 st h.id).bind fun st =>
  (writeU8 st h.flags1).bind fun st =>
  (writeU8 st h.flags2).bind fun st =>
  (writeU16 st h.questionCount).bind fun st =>
  (writeU16 st h.answerCount).bind fun st =>
  (writeU16 st h.authorityCount).bind fun st =>
  writeU16 st h.additionalCount

/-- `Record` from `dns_packet.rs`: IPv4/IPv6 addresses are their `u32` /
`u128` numeric values, names are byte strings. -/
inductive Record where
  | A (addr : Nat)
  | NS (name : List Nat)
  | CNAME (name : List Nat)
  | MX (priority : Nat) (host : List Nat)
  | AAAA (addr : Nat)
  | UNKOWN (code : Nat)
  deriving DecidableEq

/-- The builder state after a write whose `Result` the source ignores: the
new state on success, the old state unchanged on failure. -/
def orKeep (st : BufferBuilder) (r : Except DnsErr BufferBuilder) :
    BufferBuilder :=
  match r with
  | .ok s => s
  | .error _ => st

theorem orKeep_ok (st s : BufferBuilder) : orKeep st (.ok s) = s := rfl

theorem orKeep_err (st : BufferBuilder) (e : DnsErr) :
    orKeep st (.error e) = st := rfl

/-- The shared NS/CNAME arm of `Record::write_to_buf`.  The source ignores
the result of the RDLENGTH-reserving `write_u16(0)` (no `?`), so on failure
the builder is left unchanged and execution continues with `write_name`,
then the RDLENGTH is backpatched at the saved position. -/
def nsCnameWriteToBuf (name : List Nat) (st : BufferBuilder) :
    Except DnsErr BufferBuilder :=
  (writeName name (orKeep st (writeU16 st 0))).bind fun st2 =>
    setU16 st2 (st2.pos - (st.pos + 2)) st.pos

/-- `Record::write_to_buf`: A/AAAA write RDLENGTH then fixed rdata;
NS/CNAME/MX reserve RDLENGTH, write the name, then backpatch; `UNKOWN`
writes nothing. -/
def Record.writeToBuf : Record → BufferBuilder → Except DnsErr BufferBuilder
  | .A addr, st => (writeU16 st 4).bind fun st => writeU32 st addr
  | .NS name, st => nsCnameWriteToBuf name st
  | .CNAME name, st => nsCnameWriteToBuf name st
  | .MX priority host, st =>
    (writeU16 st priority).bind fun st1 =>
      (writeName host st1).bind fun st2 =>
        setU16 st2 (st2.pos - (st.pos + 2)) st.pos
  | .AAAA addr, st => (writeU16 st 16).bind fun st => writeU128 st addr
  | .UNKOWN _, st => .ok st

/-- `Answer` (a resource record) from `dns_packet.rs`.  The Rust field
`class` is spelled `cls` (`class` is reserved in Lean). -/
structure Answer where
  name : List Nat
  queryType : QueryType
  cls : Nat
  ttl : Nat
  len : Nat
  record : Record
  deriving DecidableEq

/-- `Answer::write_to_buf`: name, type, class, TTL, then the record
payload (the stored `len` field is never written back). -/
def Answer.writeToBuf (a : Answer) (st : BufferBuilder) :
    Except DnsErr BufferBuilder :=
  (writeName a.name st).bind fun st =>
  (writeU16 st a.queryType.toU16).bind fun st =>
  (writeU16 st a.cls).bind fun st =>
  (writeU32 st a.ttl).bind fun st =>
  a.record.writeToBuf st

/-- `Question` from `dns_packet.rs`. -/
structure Question where
  name : List Nat
  queryType : QueryType
  cls : Nat
  deriving DecidableEq

/-- `Question::write_to_buf`. -/
def Question.writeToBuf (q : Question) (st : BufferBuilder) :
    Except DnsErr BufferBuilder :=
  (writeName q.name st).bind fun st =>
  (writeU16 st q.queryType.toU16).bind fun st =>
  writeU16 st q.cls

/-- `DnsPacket` from `dns_packet.rs`. -/
structure DnsPacket where
  header : Header
  questions : List Question
  answers : List Answer
  authorities : List Answer
  additional : List Answer
  deriving DecidableEq

/-- A `for` loop writing each element in order, aborting on error. -/
def writeList {α : Type} (f : α → BufferBuilder → Except DnsErr BufferBuilder) :
    List α → BufferBuilder → Except DnsErr BufferBuilder
  | [], st => .ok st
  | a :: rest, st => (f a st).bind (writeList f rest)

/-- `DnsPacket::write_to_buf`: header, then the four sections in order. -/
def DnsPacket.writeToBuf (p : DnsPacket) (st : BufferBuilder) :
    Except DnsErr BufferBuilder :=
  (p.header.writeToBuf st).bind fun st =>
  (writeList Question.writeToBuf p.questions st).bind fun st =>
  (writeList Answer.writeToBuf p.answers st).bind fun st =>
  (writeList Answer.writeToBuf p.authorities st).bind fun st =>
  writeList Answer.writeToBuf p.additional st

/-- `DnsPacket::to_buf`: encode into a fresh 512-byte buffer, returning the
buffer and the number of bytes written. -/
def DnsPacket.toBuf (p : DnsPacket) : Except DnsErr (List Nat × Nat) :=
  (p.writeToBuf ⟨List.replicate 512 0, 0⟩).bind fun st => .ok (st.data, st.pos)

/-- `DnsPacket::new`. -/
def DnsPacket.new (h : Header) : DnsPacket := ⟨h, [], [], [], []⟩

/-- `DnsPacket::set_questions` (the count is a `u16`). -/
def DnsPacket.setQuestions (p : DnsPacket) (qs : List Question) : DnsPacket :=
  { p with questions := qs,
           header := { p.header with questionCount := qs.length % 65536 } }

/-- `DnsPacket::set_answers`. -/
def DnsPacket.setAnswers (p : DnsPacket) (ans : List Answer) : DnsPacket :=
  { p with answers := ans,
           header := { p.header with answerCount := ans.length % 65536 } }

/-- `DnsPacket::get_unresolved_ns`: NS records of the authorities section
whose zone name is a byte-wise suffix of `qname` (`str::ends_with`). -/
def DnsPacket.getUnresolvedNs (p : DnsPacket) (qname : List Nat) :
    List (List Nat × List Nat) :=
  (p.authorities.filterMap fun auth =>
    match auth.record with
    | .NS server => some (server, auth.name)
    | _ => none).filter fun x => x.2.isSuffixOf qname

theorem beBytes_length (k v : Nat) : (beBytes k v).length = k := by
  simp [beBytes]

/-- C3 (amended): `get_unresolved_ns(qname)` yields exactly the
`(ns_host, zone)` pairs of NS records in the authorities section whose
zone is a byte-wise — hence case-sensitive — suffix of `qname`. -/
theorem get_unresolved_ns_spec (p : DnsPacket) (qname server zone : List Nat) :
    (server, zone) ∈ p.getUnresolvedNs qname ↔
    ∃ auth ∈ p.authorities, auth.record = .NS server ∧ auth.name = zone ∧
      zone.isSuffixOf qname = true := by
  rw [DnsPacket.getUnresolvedNs]
  simp only [List.mem_filter, List.mem_filterMap]
  constructor
  · rintro ⟨⟨auth, hmem, hf⟩, hsuf⟩
    cases hr : auth.record with
    | NS s =>
      rw [hr] at hf
      simp only [Option.some.injEq, Prod.mk.injEq] at hf
      refine ⟨auth, hmem, by rw [hr, hf.1], hf.2, ?_⟩
      exact hsuf
    | A addr => rw [hr] at hf; exact absurd hf (by simp)
    | CNAME n => rw [hr] at hf; exact absurd hf (by simp)
    | MX pr host => rw [hr] at hf; exact absurd hf (by simp)
    | AAAA addr => rw [hr] at hf; exact absurd hf (by simp)
    | UNKOWN c => rw [hr] at hf; exact absurd hf (by simp)
  · rintro ⟨auth, hmem, hrec, hname, hsuf⟩
    refine ⟨⟨auth, hmem, ?_⟩, ?_⟩
    · rw [hrec, hname]
    · simpa using hsuf

/-- Bytes of `example.com`. -/
def exampleCom : List Nat := [101, 120, 97, 109, 112, 108, 101, 46, 99, 111, 109]

/-- Bytes of `ns1.example.com`. -/
def ns1ExampleCom : List Nat :=
  [110, 115, 49, 46, 101, 120, 97, 109, 112, 108, 101, 46, 99, 111, 109]

/-- Bytes of `EXAMPLE.COM`. -/
def exampleComUpper : List Nat := [69, 88, 65, 77, 80, 76, 69, 46, 67, 79, 77]

/-- A packet whose authorities section delegates `example.com` to
`ns1.example.com`. -/
def nsAuthorityPacket : DnsPacket :=
  ⟨Header.new 0 false false .NOERROR, [], [],
   [⟨exampleCom, .NS, 1, 3600, 0, .NS ns1ExampleCom⟩], []⟩

/-- Counterexample to C3 as stated: the suffix comparison in
`get_unresolved_ns` is case-sensitive.  The query name `EXAMPLE.COM`
lowercases to the delegated zone `example.com`, yet the uppercase query
yields no pair while the lowercase query yields the delegation. -/
theorem get_unresolved_ns_counterexample :
    exampleComUpper.map asciiLower = exampleCom ∧
    DnsPacket.getUnresolvedNs nsAuthorityPacket exampleComUpper = [] ∧
    DnsPacket.getUnresolvedNs nsAuthorityPacket exampleCom =
      [(ns1ExampleCom, exampleCom)] := by
  exact ⟨by decide, by decide, by decide⟩

/-- Witness for the amended C3 at a concrete packet. -/
theorem get_unresolved_ns_spec_witness :
    (ns1ExampleCom, exampleCom) ∈
      DnsPacket.getUnresolvedNs nsAuthorityPacket exampleCom := by
  exact (get_unresolved_ns_spec nsAuthorityPacket exampleCom ns1ExampleCom
    exampleCom).mpr
    ⟨⟨exampleCom, .NS, 1, 3600, 0, .NS ns1ExampleCom⟩, by decide, rfl, rfl,
      by decide⟩

/-- C1 (amended): encoding a resource record of Unknown type emits its
name, type, class and TTL — the position advances by exactly the name
encoding plus 8 bytes — and neither RDLENGTH nor rdata bytes. -/
theorem answer_unknown_write_len (a : Answer) (x : Nat) (st st' : BufferBuilder)
    (hrec : a.record = .UNKOWN x)
    (h : a.writeToBuf st = .ok st') :
    st'.pos = st.pos + (nameEnc a.name).length + 8 ∧
    st'.data.length = st.data.length := by
  rw [Answer.writeToBuf] at h
  cases h1 : writeName a.name st with
  | error e => rw [h1, bindErr] at h; exact absurd h (by simp)
  | ok st1 =>
    rw [h1, bindOk] at h
    cases h2 : writeU16 st1 a.queryType.toU16 with
    | error e => rw [h2, bindErr] at h; exact absurd h (by simp)
    | ok st2 =>
      rw [h2, bindOk] at h
      cases h3 : writeU16 st2 a.cls with
      | error e => rw [h3, bindErr] at h; exact absurd h (by simp)
      | ok st3 =>
        rw [h3, bindOk] at h
        cases h4 : writeU32 st3 a.ttl with
        | error e => rw [h4, bindErr] at h; exact absurd h (by simp)
        | ok st4 =>
          rw [h4, bindOk, hrec] at h
          have hst : st4 = st' := by
            rw [Record.writeToBuf] at h
            cases h
            rfl
          subst hst
          obtain ⟨_, hlen1, hpos1, _, _, _⟩ := writeName_ok h1
          obtain ⟨hlen2, hpos2, _, _, _⟩ := writeBytes_ok h2
          obtain ⟨hlen3, hpos3, _, _, _⟩ := writeBytes_ok h3
          obtain ⟨hlen4, hpos4, _, _, _⟩ := writeBytes_ok h4
          rw [beBytes_length] at hpos2 hpos3 hpos4
          exact ⟨by omega, by omega⟩

/-- An Unknown-type resource record (numeric code 999) at the root name. -/
def unknownAnswer : Answer := ⟨[], .UNKOWN 999, 1, 0, 0, .UNKOWN 999⟩

/-- A message carrying only the Unknown record. -/
def packetWithUnknown : DnsPacket := ⟨⟨0, 0, 0, 0, 1, 0, 0⟩, [], [unknownAnswer], [], []⟩

/-- The same message with the Unknown record removed. -/
def packetWithoutUnknown : DnsPacket := ⟨⟨0, 0, 0, 0, 0, 0, 0⟩, [], [], [], []⟩

set_option maxRecDepth 4000 in
/-- Counterexample to C1 as stated: the encoder does not skip the Unknown
record entirely — its name, type, class and TTL are still written (22
versus 12 bytes), so the output differs from the encoding of the message
with the record removed. -/
theorem unknown_record_skip_counterexample :
    (DnsPacket.toBuf packetWithUnknown).toOption.map Prod.snd = some 22 ∧
    (DnsPacket.toBuf packetWithoutUnknown).toOption.map Prod.snd = some 12 ∧
    DnsPacket.toBuf packetWithUnknown ≠ DnsPacket.toBuf packetWithoutUnknown := by
  exact ⟨by decide, by decide, by decide⟩

/-- Witness for the amended C1 at a concrete record: encoding the Unknown
record at position 0 ends at position 10 = name encoding (2 bytes) + 8. -/
theorem answer_unknown_write_len_witness :
    (10 : Nat) = 0 + (nameEnc unknownAnswer.name).length + 8 := by
  have h := answer_unknown_write_len unknownAnswer 999 ⟨List.replicate 32 0, 0⟩
    ⟨[0, 0, 3, 231, 0, 1, 0, 0, 0, 0] ++ List.replicate 22 0, 10⟩ rfl (by decide)
  exact h.1

/-- `RecordEntry` from `dns_cache.rs`: a cached resource record plus its
absolute expiration instant (`Local::now() + ttl`, with time as `Nat`
seconds). -/
structure RecordEntry where
  record : Answer
  expiresAt : Nat
  deriving DecidableEq

/-- `RecordEntry::new` at insertion instant `now`. -/
def RecordEntry.new (record : Answer) (now : Nat) : RecordEntry :=
  ⟨record, now + record.ttl⟩

/-- `RecordEntry::is_expired` at instant `now`. -/
def RecordEntry.isExpired (e : RecordEntry) (now : Nat) : Bool :=
  decide (e.expiresAt < now)

/-- `CacheEntry` from `dns_cache.rs`: the `HashMap<QueryType, HashSet<..>>`
is an association list of type/set pairs, a `HashSet` is a duplicate-free
list under the `PartialEq` of `RecordEntry` (which compares only the
`record` field, never the expiration). -/
structure CacheEntry where
  domain : List Nat
  recordTypes : List (QueryType × List RecordEntry)
  deriving DecidableEq

/-- The top-level map of `DnsCache` (`HashMap<String, CacheEntry>`). -/
abbrev DnsCache := List (List Nat × CacheEntry)

/-- `HashMap::get` on the top-level map. -/
def lookupCache : DnsCache → List Nat → Option CacheEntry
  | [], _ => none
  | (k, e) :: rest, q => if k = q then some e else lookupCache rest q

/-- `HashMap::get` on a `record_types` map. -/
def lookupType : List (QueryType × List RecordEntry) → QueryType →
    Option (List RecordEntry)
  | [], _ => none
  | (t, s) :: rest, qt => if t = qt then some s else lookupType rest qt

/-- `HashSet::insert`: keep the existing element when an equal one (same
`record`, expiration ignored) is already present, append otherwise. -/
def insertSet (s : List RecordEntry) (e : RecordEntry) : List RecordEntry :=
  if ∃ x ∈ s, x.record = e.record then s else s ++ [e]

/-- `entry(query_type).or_insert_with(HashSet::new).insert(RecordEntry::new
(answer))` on an association-list map. -/
def updateTypes : List (QueryType × List RecordEntry) → Answer → Nat →
    List (QueryType × List RecordEntry)
  | [], ans, now => [(ans.queryType, insertSet [] (RecordEntry.new ans now))]
  | (t, s) :: rest, ans, now =>
    if t = ans.queryType then (t, insertSet s (RecordEntry.new ans now)) :: rest
    else (t, s) :: updateTypes rest ans now

/-- The `for answer in answers` insertion loop shared by `insert` and
`update`. -/
def foldTypes (ts : List (QueryType × List RecordEntry)) (answers : List Answer)
    (now : Nat) : List (QueryType × List RecordEntry) :=
  answers.foldl (fun ts a => updateTypes ts a now) ts

/-- `HashMap::get_mut` followed by an in-place edit of the found entry. -/
def updateCacheAt : DnsCache → List Nat → (CacheEntry → CacheEntry) → DnsCache
  | [], _, _ => []
  | (k, e) :: rest, q, f =>
    if k = q then (k, f e) :: rest else (k, e) :: updateCacheAt rest q f

/-- `HashMap::insert` on the top-level map (replace or append). -/
def insertAssoc : DnsCache → List Nat → CacheEntry → DnsCache
  | [], k, e => [(k, e)]
  | (k', e') :: rest, k, e =>
    if k' = k then (k, e) :: rest else (k', e') :: insertAssoc rest k e

/-- `DnsCache::update` (an `and_then` chain in the source): if the first
answer's name has an entry, merge all answers into it (returning the new
cache); otherwise `none`. -/
def DnsCache.update (c : DnsCache) : List Answer → Nat → Option DnsCache
  | [], _ => none
  | a0 :: rest, now =>
    (lookupCache c a0.name).bind fun _ =>
      some (updateCacheAt c a0.name fun e =>
        { e with recordTypes := foldTypes e.recordTypes (a0 :: rest) now })

/-- `DnsCache::insert`: empty batch is a no-op; try `update` first; else
create a fresh entry keyed by the first answer's name. -/
def DnsCache.insert (c : DnsCache) : List Answer → Nat → DnsCache
  | [], _ => c
  | a0 :: rest, now =>
    match DnsCache.update c (a0 :: rest) now with
    | some c' => c'
    | none => insertAssoc c a0.name ⟨a0.name, foldTypes [] (a0 :: rest) now⟩

/-- Reduction of `Option.bind` on `some`. -/
theorem obindSome {α β : Type} (a : α) (f : α → Option β) :
    (some a).bind f = f a := rfl

/-- Reduction of `Option.bind` on `none`. -/
theorem obindNone {α β : Type} (f : α → Option β) :
    (Option.none : Option α).bind f = none := rfl

/-- `DnsCache::get` (an `and_then` chain in the source): all non-expired
records at `(qname, qt)`, `none` when the domain or type is absent or
everything expired. -/
def DnsCache.get (c : DnsCache) (qname : List Nat) (qt : QueryType)
    (now : Nat) : Option (List Answer) :=
  (lookupCache c qname).bind fun entry =>
    (lookupType entry.recordTypes qt).bind fun s =>
      if ((s.filter fun e => ! e.isExpired now).map fun e => e.record).isEmpty
      then none
      else some ((s.filter fun e => ! e.isExpired now).map fun e => e.record)

/-- `DnsCache::insert_all`: the three sections as three batches. -/
def DnsCache.insertAll (c : DnsCache) (p : DnsPacket) (now : Nat) : DnsCache :=
  ((c.insert p.answers now).insert p.authorities now).insert p.additional now

/-- C4: `DnsCache::get` never returns an expired record.  It returns
`none` exactly when the domain is absent, the type is absent under the
domain, or every record at that `(name, type)` has expired; and when it
returns records, they are exactly the records of the non-expired entries
stored at `(name, type)`. -/
theorem dns_cache_get_spec (c : DnsCache) (q : List Nat) (qt : QueryType)
    (now : Nat) :
    (DnsCache.get c q qt now = none ↔
      lookupCache c q = none ∨
      ∃ entry, lookupCache c q = some entry ∧
        (lookupType entry.recordTypes qt = none ∨
         ∃ s, lookupType entry.recordTypes qt = some s ∧
           ∀ e ∈ s, e.isExpired now = true)) ∧
    (∀ l, DnsCache.get c q qt now = some l →
      (∀ a ∈ l, ∃ entry s e, lookupCache c q = some entry ∧
        lookupType entry.recordTypes qt = some s ∧ e ∈ s ∧
        e.isExpired now = false ∧ e.record = a) ∧
      (∀ entry s e, lookupCache c q = some entry →
        lookupType entry.recordTypes qt = some s → e ∈ s →
        e.isExpired now = false → e.record ∈ l)) := by
  rw [DnsCache.get]
  cases hc : lookupCache c q with
  | none =>
    rw [obindNone]
    refine ⟨by simp, ?_⟩
    intro l hl
    exact absurd hl (by simp)
  | some entry =>
    rw [obindSome]
    cases ht : lookupType entry.recordTypes qt with
    | none =>
      rw [obindNone]
      constructor
      · exact ⟨fun _ => Or.inr ⟨entry, rfl, Or.inl ht⟩, fun _ => rfl⟩
      · intro l hl
        exact absurd hl (by simp)
    | some s =>
      rw [obindSome]
      by_cases he : ((s.filter fun e => ! e.isExpired now).map
          fun e => e.record).isEmpty
      · rw [if_pos he]
        constructor
        · constructor
          · intro _
            refine Or.inr ⟨entry, rfl, Or.inr ⟨s, ht, ?_⟩⟩
            intro e hes
            rw [List.isEmpty_iff, List.map_eq_nil_iff] at he
            by_contra hne
            simp only [Bool.not_eq_true] at hne
            have hmem : e ∈ s.filter fun e => ! e.isExpired now :=
              List.mem_filter.mpr ⟨hes, by simp [hne]⟩
            rw [he] at hmem
            simp at hmem
          · intro _; rfl
        · intro l hl
          exact absurd hl (by simp)
      · rw [if_neg he]
        constructor
        · constructor
          · intro hn
            exact absurd hn (by simp)
          · rintro (hn | ⟨entry', hent, hn⟩)
            · exact absurd hn (by simp)
            · have hent' : entry' = entry := (Option.some.inj hent).symm
              subst hent'
              rcases hn with hn | ⟨s', hs', hallexp⟩
              · rw [hn] at ht; exact absurd ht (by simp)
              · have hs'' : s' = s := by
                  rw [ht] at hs'
                  exact (Option.some.inj hs').symm
                subst hs''
                refine absurd ?_ he
                rw [List.isEmpty_iff, List.map_eq_nil_iff, List.filter_eq_nil_iff]
                intro e hes
                simp [hallexp e hes]
        · intro l hl
          have hl' : l = (s.filter fun e => ! e.isExpired now).map
              fun e => e.record := (Option.some.inj hl).symm
          subst hl'
          constructor
          · intro a ha
            rw [List.mem_map] at ha
            obtain ⟨e, hef, her⟩ := ha
            rw [List.mem_filter] at hef
            refine ⟨entry, s, e, rfl, ht, hef.1, ?_, her⟩
            simpa using hef.2
          · intro entry' s' e hc' ht' he' hexp
            have hent' : entry' = entry := (Option.some.inj hc').symm
            subst hent'
            have hs'' : s' = s := by
              rw [ht] at ht'
              exact (Option.some.inj ht').symm
            subst hs''
            rw [List.mem_map]
            exact ⟨e, List.mem_filter.mpr ⟨he', by simp [hexp]⟩, rfl⟩

/-- The record `a` (compared by its wire fields, expiration ignored) is
present in the type map `ts` under its own query type. -/
def containsRec (ts : List (QueryType × List RecordEntry)) (a : Answer) : Prop :=
  ∃ s, lookupType ts a.queryType = some s ∧ ∃ e ∈ s, e.record = a

theorem insertSet_mem_self (s : List RecordEntry) (en : RecordEntry) :
    ∃ e ∈ insertSet s en, e.record = en.record := by
  rw [insertSet]
  by_cases h : ∃ x ∈ s, x.record = en.record
  · rw [if_pos h]; exact h
  · rw [if_neg h]; exact ⟨en, by simp, rfl⟩

theorem insertSet_mem_of_mem {s : List RecordEntry} {e : RecordEntry}
    (en : RecordEntry) (h : e ∈ s) : e ∈ insertSet s en := by
  rw [insertSet]
  split
  · exact h
  · exact List.mem_append_left _ h

theorem insertSet_noop {s : List RecordEntry} {en : RecordEntry}
    (h : ∃ x ∈ s, x.record = en.record) : insertSet s en = s := by
  rw [insertSet, if_pos h]

theorem updateTypes_contains_self (ts : List (QueryType × List RecordEntry))
    (a : Answer) (now : Nat) : containsRec (updateTypes ts a now) a := by
  induction ts with
  | nil =>
    rw [updateTypes]
    refine ⟨insertSet [] (RecordEntry.new a now), ?_, ?_⟩
    · rw [lookupType, if_pos rfl]
    · simpa using insertSet_mem_self [] (RecordEntry.new a now)
  | cons p rest ih =>
    obtain ⟨t, s⟩ := p
    rw [updateTypes]
    by_cases ht : t = a.queryType
    · rw [if_pos ht]
      refine ⟨insertSet s (RecordEntry.new a now), ?_, ?_⟩
      · rw [lookupType, if_pos ht]
      · simpa using insertSet_mem_self s (RecordEntry.new a now)
    · rw [if_neg ht]
      obtain ⟨s', hl, he⟩ := ih
      exact ⟨s', by rw [lookupType, if_neg ht]; exact hl, he⟩

theorem updateTypes_mono (ts : List (QueryType × List RecordEntry))
    (a b : Answer) (now : Nat) (h : containsRec ts b) :
    containsRec (updateTypes ts a now) b := by
  induction ts with
  | nil =>
    obtain ⟨s', hl, _⟩ := h
    rw [lookupType] at hl
    exact absurd hl (by simp)
  | cons p rest ih =>
    obtain ⟨t, s⟩ := p
    obtain ⟨s', hl, e, he, hr⟩ := h
    rw [updateTypes]
    by_cases hta : t = a.queryType
    · rw [if_pos hta]
      by_cases htb : t = b.queryType
      · rw [lookupType, if_pos htb] at hl
        have hss : s' = s := (Option.some.inj hl).symm
        subst hss
        exact ⟨_, by rw [lookupType, if_pos htb],
          e, insertSet_mem_of_mem _ he, hr⟩
      · rw [lookupType, if_neg htb] at hl
        exact ⟨s', by rw [lookupType, if_neg htb]; exact hl, e, he, hr⟩
    · rw [if_neg hta]
      by_cases htb : t = b.queryType
      · rw [lookupType, if_pos htb] at hl
        have hss : s' = s := (Option.some.inj hl).symm
        subst hss
        exact ⟨_, by rw [lookupType, if_pos htb], e, he, hr⟩
      · rw [lookupType, if_neg htb] at hl
        obtain ⟨s'', hl'', e'', he'', hr''⟩ := ih ⟨s', hl, e, he, hr⟩
        exact ⟨s'', by rw [lookupType, if_neg htb]; exact hl'', e'', he'', hr''⟩

theorem updateTypes_noop (ts : List (QueryType × List RecordEntry))
    (a : Answer) (now : Nat) (h : containsRec ts a) :
    updateTypes ts a now = ts := by
  induction ts with
  | nil =>
    obtain ⟨s', hl, _⟩ := h
    rw [lookupType] at hl
    exact absurd hl (by simp)
  | cons p rest ih =>
    obtain ⟨t, s⟩ := p
    obtain ⟨s', hl, e, he, hr⟩ := h
    rw [updateTypes]
    by_cases hta : t = a.queryType
    · rw [if_pos hta]
      rw [lookupType, if_pos hta] at hl
      have hss : s' = s := (Option.some.inj hl).symm
      subst hss
      rw [insertSet_noop ⟨e, he, by simp [RecordEntry.new, hr]⟩]
    · rw [if_neg hta]
      rw [lookupType, if_neg hta] at hl
      rw [ih ⟨s', hl, e, he, hr⟩]

theorem foldTypes_nil (ts : List (QueryType × List RecordEntry)) (now : Nat) :
    foldTypes ts [] now = ts := rfl

theorem foldTypes_cons (ts : List (QueryType × List RecordEntry)) (a : Answer)
    (rest : List Answer) (now : Nat) :
    foldTypes ts (a :: rest) now = foldTypes (updateTypes ts a now) rest now := rfl

theorem foldTypes_mono :
    ∀ (answers : List Answer) (ts : List (QueryType × List RecordEntry))
      (now : Nat) (b : Answer), containsRec ts b →
      containsRec (foldTypes ts answers now) b := by
  intro answers
  induction answers with
  | nil => intro ts now b h; exact h
  | cons a rest ih =>
    intro ts now b h
    rw [foldTypes_cons]
    exact ih _ now b (updateTypes_mono ts a b now h)

theorem foldTypes_mem :
    ∀ (answers : List Answer) (ts : List (QueryType × List RecordEntry))
      (now : Nat) (a : Answer), a ∈ answers →
      containsRec (foldTypes ts answers now) a := by
  intro answers
  induction answers with
  | nil => intro ts now a ha; exact absurd ha (by simp)
  | cons a0 rest ih =>
    intro ts now a ha
    rw [foldTypes_cons]
    rcases List.mem_cons.mp ha with h | h
    · subst h
      exact foldTypes_mono rest _ now a (updateTypes_contains_self ts a now)
    · exact ih _ now a h

theorem foldTypes_noop :
    ∀ (answers : List Answer) (ts : List (QueryType × List RecordEntry))
      (now : Nat), (∀ a ∈ answers, containsRec ts a) →
      foldTypes ts answers now = ts := by
  intro answers
  induction answers with
  | nil => intro ts now _; rfl
  | cons a0 rest ih =>
    intro ts now h
    rw [foldTypes_cons, updateTypes_noop ts a0 now (h a0 (by simp))]
    exact ih ts now fun a ha => h a (List.mem_cons_of_mem _ ha)

theorem lookupCache_updateCacheAt_self :
    ∀ (c : DnsCache) (k : List Nat) (f : CacheEntry → CacheEntry)
      (e : CacheEntry), lookupCache c k = some e →
      lookupCache (updateCacheAt c k f) k = some (f e) := by
  intro c k f
  induction c with
  | nil =>
    intro e h
    rw [lookupCache] at h
    exact absurd h (by simp)
  | cons p rest ih =>
    obtain ⟨k', e'⟩ := p
    intro e h
    rw [updateCacheAt]
    by_cases hk : k' = k
    · rw [if_pos hk]
      rw [lookupCache, if_pos hk] at h
      rw [lookupCache, if_pos hk, Option.some.inj h]
    · rw [if_neg hk]
      rw [lookupCache, if_neg hk] at h
      rw [lookupCache, if_neg hk]
      exact ih e h

theorem lookupCache_insertAssoc_self :
    ∀ (c : DnsCache) (k : List Nat) (e : CacheEntry),
      lookupCache (insertAssoc c k e) k = some e := by
  intro c k e
  induction c with
  | nil => rw [insertAssoc, lookupCache, if_pos rfl]
  | cons p rest ih =>
    obtain ⟨k', e'⟩ := p
    rw [insertAssoc]
    by_cases hk : k' = k
    · rw [if_pos hk, lookupCache, if_pos rfl]
    · rw [if_neg hk, lookupCache, if_neg hk]
      exact ih

theorem updateCacheAt_self_eq :
    ∀ (c : DnsCache) (k : List Nat) (f : CacheEntry → CacheEntry)
      (e : CacheEntry), lookupCache c k = some e → f e = e →
      updateCacheAt c k f = c := by
  intro c k f
  induction c with
  | nil => intro e _ _; rfl
  | cons p rest ih =>
    obtain ⟨k', e'⟩ := p
    intro e h hf
    rw [updateCacheAt]
    by_cases hk : k' = k
    · rw [if_pos hk]
      rw [lookupCache, if_pos hk] at h
      rw [Option.some.inj h, hf]
    · rw [if_neg hk]
      rw [lookupCache, if_neg hk] at h
      rw [ih e h hf]

theorem update_cons_some (c : DnsCache) (a0 : Answer) (rest : List Answer)
    (now : Nat) (e0 : CacheEntry) (hlc : lookupCache c a0.name = some e0) :
    DnsCache.update c (a0 :: rest) now =
      some (updateCacheAt c a0.name fun e =>
        { e with recordTypes := foldTypes e.recordTypes (a0 :: rest) now }) := by
  rw [DnsCache.update, hlc, obindSome]

theorem update_cons_none (c : DnsCache) (a0 : Answer) (rest : List Answer)
    (now : Nat) (hlc : lookupCache c a0.name = none) :
    DnsCache.update c (a0 :: rest) now = none := by
  rw [DnsCache.update, hlc, obindNone]

theorem insert_eq_of_update_some {c : DnsCache} {now : Nat} {c' : DnsCache}
    (a0 : Answer) (rest : List Answer)
    (hu : DnsCache.update c (a0 :: rest) now = some c') :
    DnsCache.insert c (a0 :: rest) now = c' := by
  rw [DnsCache.insert, hu]

theorem insert_eq_of_update_none {c : DnsCache} {now : Nat}
    (a0 : Answer) (rest : List Answer)
    (hu : DnsCache.update c (a0 :: rest) now = none) :
    DnsCache.insert c (a0 :: rest) now =
      insertAssoc c a0.name ⟨a0.name, foldTypes [] (a0 :: rest) now⟩ := by
  rw [DnsCache.insert, hu]

/-- After a (nonempty-batch) insert, the entry found at the first answer's
name contains every inserted record. -/
theorem insert_entry_contains (c : DnsCache) (a0 : Answer) (rest : List Answer)
    (t : Nat) :
    ∃ e, lookupCache (DnsCache.insert c (a0 :: rest) t) a0.name = some e ∧
      ∀ a ∈ a0 :: rest, containsRec e.recordTypes a := by
  cases hlc : lookupCache c a0.name with
  | some e0 =>
    rw [insert_eq_of_update_some a0 rest (update_cons_some c a0 rest t e0 hlc)]
    exact ⟨_, lookupCache_updateCacheAt_self c a0.name _ e0 hlc,
      fun a ha => foldTypes_mem _ _ _ a ha⟩
  | none =>
    rw [insert_eq_of_update_none a0 rest (update_cons_none c a0 rest t hlc)]
    exact ⟨_, lookupCache_insertAssoc_self c a0.name _,
      fun a ha => foldTypes_mem _ _ _ a ha⟩

/-- Inserting the same batch twice leaves the cache state of the first
insert unchanged: every record is already present (record-field equality,
expiration ignored), so every `HashSet::insert` keeps the existing entry. -/
theorem insert_insert_eq (c : DnsCache) (R : List Answer) (t₁ t₂ : Nat) :
    DnsCache.insert (DnsCache.insert c R t₁) R t₂ = DnsCache.insert c R t₁ := by
  cases R with
  | nil => rfl
  | cons a0 rest =>
    obtain ⟨e₁, hl, hcont⟩ := insert_entry_contains c a0 rest t₁
    rw [insert_eq_of_update_some a0 rest
      (update_cons_some _ a0 rest t₂ e₁ hl)]
    apply updateCacheAt_self_eq _ _ _ e₁ hl
    rw [foldTypes_noop _ _ _ hcont]

/-- C5: for every cache state, batch `R` and instants, inserting `R` twice
yields the same `get` results as inserting it once — record identity
ignores the expiration timestamp, so re-insertion deduplicates instead of
growing the set. -/
theorem dns_cache_insert_twice (c : DnsCache) (R : List Answer) (t₁ t₂ : Nat)
    (q : List Nat) (qt : QueryType) (now : Nat) :
    DnsCache.get (DnsCache.insert (DnsCache.insert c R t₁) R t₂) q qt now =
    DnsCache.get (DnsCache.insert c R t₁) q qt now := by
  rw [insert_insert_eq]

/-- C10: re-inserting a record equal (on its wire fields) to one already
cached under its name and type leaves the cache bit-for-bit unchanged: the
existing entry with its original expiration timestamp is retained, so the
duplicate insert never extends how long the record is served. -/
theorem dns_cache_reinsert_no_refresh (c : DnsCache) (a : Answer) (now₂ : Nat)
    (entry : CacheEntry) (s : List RecordEntry) (e : RecordEntry)
    (hc : lookupCache c a.name = some entry)
    (ht : lookupType entry.recordTypes a.queryType = some s)
    (he : e ∈ s) (hr : e.record = a) :
    DnsCache.insert c [a] now₂ = c := by
  rw [insert_eq_of_update_some a [] (update_cons_some c a [] now₂ entry hc)]
  apply updateCacheAt_self_eq _ _ _ entry hc
  have hfold : foldTypes entry.recordTypes [a] now₂ =
      updateTypes entry.recordTypes a now₂ := rfl
  rw [hfold, updateTypes_noop _ _ _ ⟨s, ht, e, he, hr⟩]

/-- A cached A record for `example.com` with a 60-second TTL. -/
def ansLive : Answer := ⟨exampleCom, .A, 1, 60, 4, .A 2130706433⟩

/-- A cache whose only entry expired at instant 10. -/
def cacheExpired : DnsCache :=
  [(exampleCom, ⟨exampleCom, [(QueryType.A, [⟨ansLive, 10⟩])]⟩)]

/-- Witness for C4 at a concrete cache: at instant 50 the only stored
record (expired at 10) is filtered out and `get` returns `none`. -/
theorem dns_cache_get_spec_witness :
    DnsCache.get cacheExpired exampleCom QueryType.A 50 = none :=
  (dns_cache_get_spec cacheExpired exampleCom QueryType.A 50).1.mpr
    (Or.inr ⟨⟨exampleCom, [(QueryType.A, [⟨ansLive, 10⟩])]⟩, by decide,
      Or.inr ⟨[⟨ansLive, 10⟩], by decide, by decide⟩⟩)

/-- A cache holding `ansLive` with expiration instant 100. -/
def cacheLive : DnsCache :=
  [(exampleCom, ⟨exampleCom, [(QueryType.A, [⟨ansLive, 100⟩])]⟩)]

/-- Witness for C10 at a concrete cache: re-inserting the identical record
at instant 500 (which would give a fresh expiration of 560) leaves the
cache unchanged, retaining the original expiration instant 100. -/
theorem dns_cache_reinsert_no_refresh_witness :
    DnsCache.insert cacheLive [ansLive] 500 = cacheLive :=
  dns_cache_reinsert_no_refresh cacheLive ansLive 500
    ⟨exampleCom, [(QueryType.A, [⟨ansLive, 100⟩])]⟩ [⟨ansLive, 100⟩]
    ⟨ansLive, 100⟩ (by decide) (by decide) (by decide) rfl

/-- `QueryType::UNKOWN` discriminator (the `matches!` test in
`resolve_request`). -/
def QueryType.isUnkown : QueryType → Bool
  | .UNKOWN _ => true
  | _ => false

/-- Outcome of the pure decision core of `DnsServer::resolve_request`:
either a fully synthesized response packet, or the cache-miss path that
encodes the query and hands it to `iterative_cache_resolve` (network I/O,
out of scope here). -/
inductive ResolveOutcome where
  | response (p : DnsPacket)
  | upstream (question : Question) (query : DnsPacket)
  deriving DecidableEq

/-- The decision core of `DnsServer::resolve_request`: build the response
header (same id, RD, QR, NOERROR, then RA), answer FORMERR on an empty
question list, NOTIMP on an unknown question type, serve from the cache on
a hit, and otherwise defer to the upstream resolution path. -/
def resolveRequestCore (cache : DnsCache) (now : Nat) (query : DnsPacket) :
    ResolveOutcome :=
  let header := (Header.new query.header.id true true .NOERROR).setRecursionAvailable
    true
  match query.questions with
  | [] => .response (DnsPacket.new (header.setResponseCode .FORMERR))
  | question :: _ =>
    if question.queryType.isUnkown then
      .response (DnsPacket.new (header.setResponseCode .NOTIMP))
    else
      match DnsCache.get cache question.name question.queryType now with
      | some cached =>
        .response (((DnsPacket.new header).setQuestions
          query.questions).setAnswers cached)
      | none => .upstream question query

/-- C8: on a cache hit for the first question of a well-formed query of
known type, the resolver synthesizes the response locally — same id as the
query, QR=1, RA=1, RCODE=NOERROR, the original question list and exactly
the cached records as answers — and does not take the upstream path. -/
theorem resolve_request_cache_hit (cache : DnsCache) (now : Nat)
    (query : DnsPacket) (question : Question) (qs : List Question)
    (recs : List Answer)
    (hq : query.questions = question :: qs)
    (hqt : question.queryType.isUnkown = false)
    (hget : DnsCache.get cache question.name question.queryType now = some recs) :
    ∃ r, resolveRequestCore cache now query = .response r ∧
      r.header.id = query.header.id ∧
      r.header.getQueryResponse = true ∧
      r.header.getRecursionAvailable = true ∧
      r.header.getResponseCode = .NOERROR ∧
      r.questions = query.questions ∧
      r.answers = recs := by
  simp only [resolveRequestCore, hq, hqt, hget, Bool.false_eq_true, if_false]
  refine ⟨_, rfl, rfl, ?_, ?_, ?_, rfl, rfl⟩ <;>
    simp [DnsPacket.new, DnsPacket.setQuestions, DnsPacket.setAnswers,
      Header.getQueryResponse, Header.getRecursionAvailable,
      Header.getResponseCode, Header.new, Header.setRecursionDesired,
      Header.setQueryResponse, Header.setResponseCode,
      Header.setRecursionAvailable, ResponseCode.toU8, ResponseCode.ofNum,
      RECURSION_DESIRED, QUERY_RESPONSE, RESPONSE_CODE, RECURSION_AVAILABLE]

/-- An A record used as resolver cache content. -/
def cachedA : Answer := ⟨exampleCom, .A, 1, 300, 4, .A 2130706433⟩

/-- A resolver cache holding a live A record for `example.com`. -/
def resolverCache : DnsCache :=
  [(exampleCom, ⟨exampleCom, [(QueryType.A, [⟨cachedA, 1000⟩])]⟩)]

/-- A client query for `example.com` A. -/
def clientQuery : DnsPacket :=
  ⟨Header.new 42 true false .NOERROR, [⟨exampleCom, .A, 1⟩], [], [], []⟩

/-- Witness for C8 at a concrete query and cache. -/
theorem resolve_request_cache_hit_witness :
    ∃ r, resolveRequestCore resolverCache 10 clientQuery = .response r ∧
      r.header.id = clientQuery.header.id ∧
      r.header.getQueryResponse = true ∧
      r.header.getRecursionAvailable = true ∧
      r.header.getResponseCode = .NOERROR ∧
      r.questions = clientQuery.questions ∧
      r.answers = [cachedA] :=
  resolve_request_cache_hit resolverCache 10 clientQuery ⟨exampleCom, .A, 1⟩ []
    [cachedA] rfl (by decide) (by decide)

/-- Classification of one upstream reply inside the loop of
`DnsServer::recursive_lookup`.  `.panics` models the
`questions.first().expect("123")` panic, `.answer` the return of the
packet, the two referral actions the recursive calls, and `.malformed` the
`packet contains nothing` error. -/
inductive StepAction where
  | answer
  | glueReferral (qname : List Nat)
  | gluelessReferral (qname : List Nat)
  | malformed
  | panics
  deriving DecidableEq

/-- The per-reply decision of `DnsServer::recursive_lookup`: answers
present with RCODE NOERROR/NXDOMAIN are returned; otherwise a non-zero
header additional count means a glue referral, a non-zero authority count
a glueless referral — both read the reply's first question through
`expect` — and an empty reply is malformed. -/
def recursiveLookupStep (packet : DnsPacket) : StepAction :=
  let resCode := packet.header.getResponseCode
  if packet.answers.isEmpty = false ∧ (resCode = .NOERROR ∨ resCode = .NXDOMAIN)
  then .answer
  else if packet.header.additionalCount > 0 then
    match packet.questions.head? with
    | none => .panics
    | some q => .glueReferral q.name
  else if packet.header.authorityCount > 0 then
    match packet.questions.head? with
    | none => .panics
    | some q => .gluelessReferral q.name
  else .malformed

/-- C9: an upstream reply that lands in either referral branch (non-zero
additional count, or non-zero authority count) while carrying an empty
question section makes `recursive_lookup` panic via
`questions.first().expect(..)` instead of returning an error. -/
theorem recursive_lookup_empty_questions_panics (packet : DnsPacket)
    (hq : packet.questions = [])
    (hans : ¬ (packet.answers.isEmpty = false ∧
      (packet.header.getResponseCode = .NOERROR ∨
       packet.header.getResponseCode = .NXDOMAIN)))
    (hcnt : packet.header.additionalCount > 0 ∨
      packet.header.authorityCount > 0) :
    recursiveLookupStep packet = .panics := by
  rw [recursiveLookupStep]
  by_cases hadd : packet.header.additionalCount > 0
  · rw [if_neg hans, if_pos hadd, hq]
    rfl
  · have hauth : packet.header.authorityCount > 0 := hcnt.resolve_left hadd
    rw [if_neg hans, if_neg hadd, if_pos hauth, hq]
    rfl

/-- A malformed upstream reply: empty question section, one additional
record (and a matching header count), no answers. -/
def emptyQuestionReferral : DnsPacket :=
  ⟨⟨1, 128, 0, 0, 0, 0, 1⟩, [], [], [], [⟨exampleCom, .A, 1, 0, 4, .A 5⟩]⟩

/-- Witness for C9 at a concrete reply. -/
theorem recursive_lookup_empty_questions_panics_witness :
    recursiveLookupStep emptyQuestionReferral = .panics :=
  recursive_lookup_empty_questions_panics emptyQuestionReferral rfl
    (by decide) (Or.inl (by decide))

theorem writeBytes_error {st : BufferBuilder} {l : List Nat} {e : DnsErr}
    (h : writeBytes st l = .error e) :
    st.data.length < st.pos + l.length ∧ e = .endOfBuffer := by
  rw [writeBytes] at h
  by_cases hsp : st.pos + l.length > st.data.length
  · rw [if_pos hsp] at h
    exact ⟨hsp, (Except.error.inj h).symm⟩
  · rw [if_neg hsp] at h
    exact absurd h (by simp)

/-- A successful `write_name` needs at least two free bytes (one label
length byte plus the terminator). -/
theorem writeName_ok_space {name : List Nat} {st st' : BufferBuilder}
    (h : writeName name st = .ok st') : st.pos + 2 ≤ st.data.length := by
  obtain ⟨_, _, hpos, hple, _, _⟩ := writeName_ok h
  have h2 : 2 ≤ (nameEnc name).length := by
    rw [nameEnc]
    cases hsd : splitDot name with
    | nil => exact absurd hsd (splitDot_ne_nil name)
    | cons l0 ls => simp [labelsEnc]; omega
  omega

/-- With fewer than two free bytes and all labels within the 63-byte
bound, `write_name` fails with `EndOfBuffer`. -/
theorem writeName_tight {name : List Nat} {st : BufferBuilder}
    (h63 : ∀ l ∈ splitDot name, l.length ≤ 63)
    (hsp : st.data.length < st.pos + 2) :
    writeName name st = .error .endOfBuffer := by
  cases hsd : splitDot name with
  | nil => exact absurd hsd (splitDot_ne_nil name)
  | cons l0 ls =>
    have h0 : l0.length ≤ 63 := h63 l0 (by rw [hsd]; simp)
    rw [writeName, hsd, writeLabels, if_neg (by omega)]
    cases hw1 : writeBytes st [l0.length % 256] with
    | error e =>
      obtain ⟨_, he⟩ := writeBytes_error hw1
      subst he
      rfl
    | ok st1 =>
      obtain ⟨hlen1, hpos1, _, _, _⟩ := writeBytes_ok hw1
      rw [List.length_singleton _] at hpos1
      rw [bindOk]
      cases hl0 : l0 with
      | cons b bs =>
        have hfail : writeBytes st1 (b :: bs) = .error .endOfBuffer := by
          rw [writeBytes, if_pos (by simp; omega)]
        rw [hfail, bindErr, bindErr]
      | nil =>
        have h2 : writeBytes st1 [] = .ok st1 := by
          rw [writeBytes, if_neg (by simp; omega)]
          rfl
        rw [h2, bindOk]
        cases ls with
        | nil =>
          rw [writeLabels, bindOk, writeBytes, if_pos (by simp; omega)]
        | cons l1 ls' =>
          have h1 : l1.length ≤ 63 := h63 l1 (by rw [hsd]; simp)
          rw [writeLabels, if_neg (by omega)]
          have hfail : writeBytes st1 [l1.length % 256] = .error .endOfBuffer := by
            rw [writeBytes, if_pos (by simp; omega)]
          rw [hfail, bindErr, bindErr]

/-- The two invariants needed for the 512-byte bound, for a builder-state
transformer `f`: (1) a successful run preserves the buffer length, never
moves the position backwards, and either leaves the position unchanged or
within the buffer; (2) running `f` from the same position over a buffer of
any other length either fails with `EndOfBuffer` or succeeds reaching the
same position (the control flow of the encoder depends only on the
position and the buffer length, never on the buffer contents). -/
def WOk (f : BufferBuilder → Except DnsErr BufferBuilder) : Prop :=
  (∀ st st', f st = .ok st' →
    st'.data.length = st.data.length ∧ st.pos ≤ st'.pos ∧
    (st'.pos = st.pos ∨ st'.pos ≤ st.data.length)) ∧
  (∀ (dN dM : List Nat) (p : Nat) (stN' : BufferBuilder),
    f ⟨dN, p⟩ = .ok stN' →
    f ⟨dM, p⟩ = .error .endOfBuffer ∨
    ∃ dM', f ⟨dM, p⟩ = .ok ⟨dM', stN'.pos⟩)

theorem wok_pure : WOk fun st => .ok st := by
  constructor
  · intro st st' h
    cases h
    exact ⟨rfl, le_refl _, Or.inl rfl⟩
  · intro dN dM p stN' h
    cases h
    exact Or.inr ⟨dM, rfl⟩

theorem wok_writeBytes (l : List Nat) : WOk fun st => writeBytes st l := by
  constructor
  · intro st st' h
    obtain ⟨hlen, hpos, hple, _, _⟩ := writeBytes_ok h
    exact ⟨hlen, by omega, Or.inr (by omega)⟩
  · intro dN dM p stN' h
    obtain ⟨_, hpos, _, _, _⟩ := writeBytes_ok h
    by_cases hsp : p + l.length > dM.length
    · left
      show writeBytes ⟨dM, p⟩ l = Except.error DnsErr.endOfBuffer
      rw [writeBytes, if_pos (by simpa using hsp)]
    · right
      refine ⟨setRange dM p l, ?_⟩
      show writeBytes ⟨dM, p⟩ l = Except.ok ⟨setRange dM p l, stN'.pos⟩
      rw [writeBytes, if_neg (by simpa using hsp), hpos]

theorem wok_setU16 (c q : Nat) : WOk fun st => setU16 st (st.pos - c) q := by
  constructor
  · intro st st' h
    have h' : setU16 st (st.pos - c) q = .ok st' := h
    rw [setU16] at h'
    by_cases hsp : st.pos + 2 > st.data.length
    · rw [if_pos hsp] at h'; exact absurd h' (by simp)
    · rw [if_neg hsp] at h'
      have hst : st' = ⟨setRange st.data q (beBytes 2 (st.pos - c)), st.pos⟩ := by
        cases h'; rfl
      subst hst
      exact ⟨setRange_length _ _ _, le_refl _, Or.inl rfl⟩
  · intro dN dM p stN' h
    have h' : setU16 ⟨dN, p⟩ (p - c) q = .ok stN' := h
    rw [setU16] at h'
    by_cases hspN : p + 2 > dN.length
    · rw [if_pos (by simpa using hspN)] at h'
      exact absurd h' (by simp)
    · rw [if_neg (by simpa using hspN)] at h'
      have hpos : stN'.pos = p := by cases h'; rfl
      by_cases hsp : p + 2 > dM.length
      · left
        show setU16 ⟨dM, p⟩ (p - c) q = Except.error DnsErr.endOfBuffer
        rw [setU16, if_pos (by simpa using hsp)]
      · right
        refine ⟨setRange dM q (beBytes 2 (p - c)), ?_⟩
        show setU16 ⟨dM, p⟩ (p - c) q =
          Except.ok ⟨setRange dM q (beBytes 2 (p - c)), stN'.pos⟩
        rw [setU16, if_neg (by simpa using hsp), hpos]

theorem wok_comp {f g : BufferBuilder → Except DnsErr BufferBuilder}
    (hf : WOk f) (hg : WOk g) : WOk fun st => (f st).bind g := by
  constructor
  · intro st st' h
    have h' : (f st).bind g = .ok st' := h
    cases hfe : f st with
    | error e => rw [hfe, bindErr] at h'; exact absurd h' (by simp)
    | ok st1 =>
      rw [hfe, bindOk] at h'
      obtain ⟨hlen1, hpos1, hd1⟩ := hf.1 st st1 hfe
      obtain ⟨hlen2, hpos2, hd2⟩ := hg.1 st1 st' h'
      refine ⟨by omega, by omega, ?_⟩
      rcases hd2 with hd2 | hd2
      · rcases hd1 with hd1 | hd1
        · exact Or.inl (by omega)
        · exact Or.inr (by omega)
      · exact Or.inr (by omega)
  · intro dN dM p stN' h
    have h' : (f ⟨dN, p⟩).bind g = .ok stN' := h
    cases hfe : f ⟨dN, p⟩ with
    | error e => rw [hfe, bindErr] at h'; exact absurd h' (by simp)
    | ok stN1 =>
      rw [hfe, bindOk] at h'
      rcases hf.2 dN dM p stN1 hfe with hM | ⟨dM1, hM⟩
      · left
        show (f ⟨dM, p⟩).bind g = Except.error DnsErr.endOfBuffer
        rw [hM, bindErr]
      · rcases hg.2 stN1.data dM1 stN1.pos stN' h' with hM2 | ⟨dM2, hM2⟩
        · left
          show (f ⟨dM, p⟩).bind g = Except.error DnsErr.endOfBuffer
          rw [hM, bindOk]
          exact hM2
        · right
          refine ⟨dM2, ?_⟩
          show (f ⟨dM, p⟩).bind g = Except.ok ⟨dM2, stN'.pos⟩
          rw [hM, bindOk]
          exact hM2

theorem wok_writeLabels : ∀ ls : List (List Nat), WOk (writeLabels ls) := by
  intro ls
  induction ls with
  | nil => exact wok_pure
  | cons l rest ih =>
    have hcomp : WOk fun st => (writeBytes st [l.length % 256]).bind fun st1 =>
        (writeBytes st1 l).bind (writeLabels rest) :=
      wok_comp (wok_writeBytes _) (wok_comp (wok_writeBytes _) ih)
    constructor
    · intro st st' h
      rw [writeLabels] at h
      by_cases h63 : l.length > 63
      · rw [if_pos h63] at h; exact absurd h (by simp)
      · rw [if_neg h63] at h
        exact hcomp.1 st st' h
    · intro dN dM p stN' h
      rw [writeLabels] at h
      by_cases h63 : l.length > 63
      · rw [if_pos h63] at h; exact absurd h (by simp)
      · rw [if_neg h63] at h
        rcases hcomp.2 dN dM p stN' h with hM | ⟨dM', hM⟩
        · left; rw [writeLabels, if_neg h63]; exact hM
        · right; exact ⟨dM', by rw [writeLabels, if_neg h63]; exact hM⟩

theorem wok_writeName (name : List Nat) : WOk (writeName name) :=
  wok_comp (wok_writeLabels (splitDot name)) (wok_writeBytes [0])

theorem wok_nsCname (name : List Nat) : WOk (nsCnameWriteToBuf name) := by
  constructor
  · intro st st' h
    have h' : (writeName name (orKeep st (writeU16 st 0))).bind
        (fun st2 => setU16 st2 (st2.pos - (st.pos + 2)) st.pos) = .ok st' := h
    cases hw : writeU16 st 0 with
    | error e =>
      rw [hw, orKeep_err] at h'
      exact (wok_comp (wok_writeName name)
        (wok_setU16 (st.pos + 2) st.pos)).1 st st' h'
    | ok st1 =>
      rw [hw, orKeep_ok] at h'
      obtain ⟨hlen1, hpos1, hple1, _, _⟩ := writeBytes_ok hw
      rw [beBytes_length] at hpos1
      obtain ⟨hlen2, hpos2, hd2⟩ := (wok_comp (wok_writeName name)
        (wok_setU16 (st.pos + 2) st.pos)).1 st1 st' h'
      refine ⟨by omega, by omega, Or.inr ?_⟩
      rcases hd2 with hd2 | hd2 <;> omega
  · intro dN dM p stN' h
    have h' : (writeName name (orKeep ⟨dN, p⟩ (writeU16 ⟨dN, p⟩ 0))).bind
        (fun st2 => setU16 st2 (st2.pos - (p + 2)) p) = .ok stN' := h
    cases hwN : writeU16 (⟨dN, p⟩ : BufferBuilder) 0 with
    | error e =>
      rw [hwN, orKeep_err] at h'
      obtain ⟨hsp, _⟩ := writeBytes_error hwN
      rw [beBytes_length] at hsp
      have hsp' : dN.length < p + 2 := hsp
      cases hwn2 : writeName name (⟨dN, p⟩ : BufferBuilder) with
      | error e2 => rw [hwn2, bindErr] at h'; exact absurd h' (by simp)
      | ok st2 =>
        have hsp2 : p + 2 ≤ dN.length := writeName_ok_space hwn2
        exact absurd hsp2 (by omega)
    | ok stN1 =>
      rw [hwN, orKeep_ok] at h'
      obtain ⟨hlenN1, hposN1, _, _, _⟩ := writeBytes_ok hwN
      rw [beBytes_length] at hposN1
      have hposN1' : stN1.pos = p + 2 := hposN1
      cases hwM : writeU16 (⟨dM, p⟩ : BufferBuilder) 0 with
      | ok stM1 =>
        obtain ⟨hlenM1, hposM1, _, _, _⟩ := writeBytes_ok hwM
        rw [beBytes_length] at hposM1
        have hposM1' : stM1.pos = p + 2 := hposM1
        have hstM : stM1 = (⟨stM1.data, p + 2⟩ : BufferBuilder) := by
          rw [← hposM1']
        have hstN : stN1 = (⟨stN1.data, p + 2⟩ : BufferBuilder) := by
          rw [← hposN1']
        have h'' : (writeName name (⟨stN1.data, p + 2⟩ : BufferBuilder)).bind
            (fun st2 => setU16 st2 (st2.pos - (p + 2)) p) = .ok stN' := by
          rw [← hstN]
          exact h'
        rcases (wok_comp (wok_writeName name) (wok_setU16 (p + 2) p)).2
            stN1.data stM1.data (p + 2) stN' h'' with hM2 | ⟨dM2, hM2⟩
        · left
          show (writeName name (orKeep ⟨dM, p⟩ (writeU16 ⟨dM, p⟩ 0))).bind
            (fun st2 => setU16 st2 (st2.pos - (p + 2)) p) =
            Except.error DnsErr.endOfBuffer
          rw [hwM, orKeep_ok, hstM]
          exact hM2
        · right
          refine ⟨dM2, ?_⟩
          show (writeName name (orKeep ⟨dM, p⟩ (writeU16 ⟨dM, p⟩ 0))).bind
            (fun st2 => setU16 st2 (st2.pos - (p + 2)) p) =
            Except.ok ⟨dM2, stN'.pos⟩
          rw [hwM, orKeep_ok, hstM]
          exact hM2
      | error eM =>
        obtain ⟨hspM, _⟩ := writeBytes_error hwM
        rw [beBytes_length] at hspM
        have hspM' : dM.length < p + 2 := hspM
        cases hwn2 : writeName name stN1 with
        | error e2 => rw [hwn2, bindErr] at h'; exact absurd h' (by simp)
        | ok stN2 =>
          obtain ⟨h63, _, _, _, _, _⟩ := writeName_ok hwn2
          left
          show (writeName name (orKeep ⟨dM, p⟩ (writeU16 ⟨dM, p⟩ 0))).bind
            (fun st2 => setU16 st2 (st2.pos - (p + 2)) p) =
            Except.error DnsErr.endOfBuffer
          rw [hwM, orKeep_err, writeName_tight h63 hspM', bindErr]

theorem wok_mx (priority : Nat) (host : List Nat) :
    WOk (Record.writeToBuf (.MX priority host)) := by
  constructor
  · intro st st' h
    exact (wok_comp (wok_writeBytes (beBytes 2 priority))
      (wok_comp (wok_writeName host)
        (wok_setU16 (st.pos + 2) st.pos))).1 st st' h
  · intro dN dM p stN' h
    exact (wok_comp (wok_writeBytes (beBytes 2 priority))
      (wok_comp (wok_writeName host)
        (wok_setU16 (p + 2) p))).2 dN dM p stN' h

theorem wok_record : ∀ r : Record, WOk (Record.writeToBuf r) := by
  intro r
  cases r with
  | A addr =>
    exact wok_comp (wok_writeBytes (beBytes 2 4)) (wok_writeBytes (beBytes 4 addr))
  | NS name => exact wok_nsCname name
  | CNAME name => exact wok_nsCname name
  | MX priority host => exact wok_mx priority host
  | AAAA addr =>
    exact wok_comp (wok_writeBytes (beBytes 2 16)) (wok_writeBytes (beBytes 16 addr))
  | UNKOWN c => exact wok_pure

theorem wok_answer (a : Answer) : WOk a.writeToBuf :=
  wok_comp (wok_writeName a.name)
    (wok_comp (wok_writeBytes (beBytes 2 a.queryType.toU16))
      (wok_comp (wok_writeBytes (beBytes 2 a.cls))
        (wok_comp (wok_writeBytes (beBytes 4 a.ttl)) (wok_record a.record))))

theorem wok_question (q : Question) : WOk q.writeToBuf :=
  wok_comp (wok_writeName q.name)
    (wok_comp (wok_writeBytes (beBytes 2 q.queryType.toU16))
      (wok_writeBytes (beBytes 2 q.cls)))

theorem wok_header (h : Header) : WOk h.writeToBuf :=
  wok_comp (wok_writeBytes (beBytes 2 h.id))
    (wok_comp (wok_writeBytes [h.flags1 % 256])
      (wok_comp (wok_writeBytes [h.flags2 % 256])
        (wok_comp (wok_writeBytes (beBytes 2 h.questionCount))
          (wok_comp (wok_writeBytes (beBytes 2 h.answerCount))
            (wok_comp (wok_writeBytes (beBytes 2 h.authorityCount))
              (wok_writeBytes (beBytes 2 h.additionalCount)))))))

theorem wok_writeList {α : Type}
    (f : α → BufferBuilder → Except DnsErr BufferBuilder)
    (hf : ∀ a, WOk (f a)) : ∀ l : List α, WOk (writeList f l) := by
  intro l
  induction l with
  | nil => exact wok_pure
  | cons a rest ih => exact wok_comp (hf a) ih

theorem wok_packet (p : DnsPacket) : WOk p.writeToBuf :=
  wok_comp (wok_header p.header)
    (wok_comp (wok_writeList Question.writeToBuf wok_question p.questions)
      (wok_comp (wok_writeList Answer.writeToBuf wok_answer p.answers)
        (wok_comp (wok_writeList Answer.writeToBuf wok_answer p.authorities)
          (wok_writeList Answer.writeToBuf wok_answer p.additional))))

/-- C7: encodings returned by `to_buf` never exceed 512 bytes; and a
message whose full encoding (its write into an arbitrarily large zeroed
buffer) ends past byte 512 makes `to_buf` fail with `EndOfBuffer` instead
of succeeding with truncated output. -/
theorem to_buf_512_bound (p : DnsPacket) :
    (∀ (N : Nat) (stN : BufferBuilder),
      DnsPacket.writeToBuf p ⟨List.replicate N 0, 0⟩ = .ok stN →
      512 < stN.pos →
      DnsPacket.toBuf p = .error .endOfBuffer) ∧
    (∀ (d : List Nat) (n : Nat),
      DnsPacket.toBuf p = .ok (d, n) → n ≤ 512) := by
  constructor
  · intro N stN hN hgt
    rcases (wok_packet p).2 (List.replicate N 0) (List.replicate 512 0) 0 stN hN
      with hM | ⟨dM', hM⟩
    · rw [DnsPacket.toBuf, hM, bindErr]
    · obtain ⟨hlen, _, hd⟩ :=
        (wok_packet p).1 ⟨List.replicate 512 0, 0⟩ ⟨dM', stN.pos⟩ hM
      rcases hd with hd | hd
      · have h0 : stN.pos = 0 := hd
        exact absurd hgt (by omega)
      · have hle : stN.pos ≤ (List.replicate 512 (0 : Nat)).length := hd
        rw [List.length_replicate] at hle
        exact absurd hgt (by omega)
  · intro d n h
    rw [DnsPacket.toBuf] at h
    cases hw : DnsPacket.writeToBuf p ⟨List.replicate 512 0, 0⟩ with
    | error e => rw [hw, bindErr] at h; exact absurd h (by simp)
    | ok st =>
      rw [hw, bindOk] at h
      have hn : n = st.pos := by
        have h' := Except.ok.inj h
        exact ((Prod.mk.injEq _ _ _ _).mp h').2.symm
      obtain ⟨_, _, hd⟩ := (wok_packet p).1 ⟨List.replicate 512 0, 0⟩ st hw
      rcases hd with hd | hd
      · have h0 : st.pos = 0 := hd
        omega
      · have hle : st.pos ≤ (List.replicate 512 (0 : Nat)).length := hd
        rw [List.length_replicate] at hle
        omega

/-- A 47-byte label. -/
def longLabel : List Nat := List.replicate 47 97

/-- An 11-label name whose wire encoding is 529 bytes. -/
def longName : List Nat := List.intercalate [46] (List.replicate 11 longLabel)

/-- A query packet whose full encoding is 545 bytes, exceeding 512. -/
def bigPacket : DnsPacket :=
  ⟨⟨0, 0, 0, 1, 0, 0, 0⟩, [⟨longName, .A, 1⟩], [], [], []⟩

set_option maxRecDepth 100000 in
/-- Witness for C7 at concrete messages: the 545-byte message fails with
`EndOfBuffer`, and the successful encoding of an empty message is within
the 512-byte bound. -/
theorem to_buf_512_bound_witness :
    DnsPacket.toBuf bigPacket = .error .endOfBuffer ∧ (12 : Nat) ≤ 512 := by
  constructor
  · have hmap : (DnsPacket.writeToBuf bigPacket
        ⟨List.replicate 600 0, 0⟩).map BufferBuilder.pos = .ok 545 := by decide
    cases hrun : DnsPacket.writeToBuf bigPacket ⟨List.replicate 600 0, 0⟩ with
    | error e =>
      rw [hrun] at hmap
      exact absurd hmap (by simp [Except.map])
    | ok stN =>
      rw [hrun] at hmap
      have hpos : stN.pos = 545 := by
        simpa [Except.map] using hmap
      exact (to_buf_512_bound bigPacket).1 600 stN hrun (by omega)
  · exact (to_buf_512_bound packetWithoutUnknown).2 (List.replicate 512 0) 12
      (by decide)

end DnsRust
